import Mathlib

/-!
# Rock store: the swap directory facade

A shallow embedding of `src/fs/rock/RockSwapDir.cc`, of the slot locks declared in
`src/fs/rock/RockDirMap.h`, and of `src/ipc/Kid.cc`.

Conventions of the embedding.

* C++ integers (`int`, `int64_t`, `time_t`, sizes) are mathematical integers, except
  in `parseSize`, where the 32-bit shift and the conversion to the type of
  `max_size` are written out.
* A function that can hit a failing `assert` or dereference a null pointer returns
  `Except Abort _`; `Abort` names the assertion that stopped the process. A call of
  `fatal()` is an `Except Fatal _`.
* `debugs(...)` statements are not modelled.
* Code that lives outside `src/` (the shared map `Ipc::StoreMap`, the I/O state
  object, the removal policy, the base `::SwapDir`, header constants) is not
  modelled: every call into it that can change state is appended to the `calls`
  log of the swap directory, and every answer it gives is read from an `Env`
  record, whose fields may inspect the whole current state, log included.
-/

namespace Rock

/-! ## Data model -/

/-- The MD5 key of a store entry, `cache_key *`; only its identity matters here. -/
abbrev cache_key := Nat

/-- Enumeration `swap_status_t`. -/
inductive swap_status_t where
  | SWAPOUT_NONE
  | SWAPOUT_WRITING
  | SWAPOUT_DONE
deriving DecidableEq, Repr

/-- Enumeration `store_status_t`. -/
inductive store_status_t where
  | STORE_OK
  | STORE_PENDING
deriving DecidableEq, Repr

/-- Enumeration `mem_status_t`. -/
inductive mem_status_t where
  | NOT_IN_MEMORY
  | IN_MEMORY
deriving DecidableEq, Repr

/-- Enumeration `ping_status_t`. -/
inductive ping_status_t where
  | PING_NONE
  | PING_WAITING
  | PING_DONE
deriving DecidableEq, Repr

/-- Class `StoreEntryBasics` of `RockDirMap.h`: the on-disk STORE_META_STD fields. -/
structure StoreEntryBasics where
  timestamp : Int
  lastref : Int
  expires : Int
  lastmod : Int
  swap_file_sz : Int
  refcount : Nat
  flags : Nat
deriving DecidableEq, Repr

/-- The part of `MemObject` that `createStoreIO` reads: the field `swap_hdr_sz`
and the value returned by `expectedReplySize()`. -/
structure MemObject where
  swap_hdr_sz : Int
  expectedReplySize : Int
deriving DecidableEq, Repr

/-- The fields of `StoreEntry` that the swap directory reads or writes. -/
structure StoreEntry where
  key : cache_key
  lock_count : Int
  swap_dirn : Int
  swap_filen : Int
  swap_file_sz : Int
  lastref : Int
  timestamp : Int
  expires : Int
  lastmod : Int
  refcount : Nat
  flags : Nat
  store_status : store_status_t
  mem_status : mem_status_t
  swap_status : swap_status_t
  ping_status : ping_status_t
  mem_obj : Option MemObject
deriving DecidableEq, Repr

/-- Modelled from the spec: `DbCellHeader` is declared outside `src/`; the spec
gives the cell header the single field `payload_size: u64`. -/
structure DbCellHeader where
  payloadSize : Int
deriving DecidableEq, Repr

/-- Modelled from the spec: `sizeof(DbCellHeader)`; the spec lays the header out as
one `u64` at offset 0 with the payload at offset 8. -/
def sizeofDbCellHeader : Int := 8

/-- A slot of the shared map, `Ipc::StoreMapSlot`: the key and the basics. -/
structure StoreMapSlot where
  key : cache_key
  basics : StoreEntryBasics
deriving DecidableEq, Repr

/-- Modelled from the spec: `StoreMapSlot::set(const StoreEntry &)` is only
declared under `src/` (`StoreEntryBasics::set` in `RockDirMap.h`); the spec says it
overwrites key and basics (timestamp, lastref, expires, lastmod, swap_file_sz,
refcount, flags) from the entry. -/
def StoreMapSlot.set (_slot : StoreMapSlot) (src : StoreEntry) : StoreMapSlot :=
  { key := src.key
    basics :=
      { timestamp := src.timestamp
        lastref := src.lastref
        expires := src.expires
        lastmod := src.lastmod
        swap_file_sz := src.swap_file_sz
        refcount := src.refcount
        flags := src.flags } }

/-- The storage of the shared map that the swap directory touches directly: the
entry limit, the slots (through the pointers the map hands out) and the per-slot
extras, `map->extras(fileno)`. -/
structure DirMap where
  entryLimit : Int
  slots : Int → StoreMapSlot
  extras : Int → DbCellHeader

/-- The disk file handle `theFile`: the answers of `error()` and `canWrite()`. -/
structure DiskFile where
  error : Bool
  canWrite : Bool
deriving DecidableEq, Repr

/-- The I/O strategy `io`: the answers of `shedLoad()` and `load()`. -/
structure DiskIOStrategy where
  shedLoad : Bool
  load : Int
deriving DecidableEq, Repr

/-- The callback data of a pending read, `read.callback_data`: the pointer, and the
answer `cbdataReferenceValidDone` (a macro outside `src/`) gives for it, that is
whether the owner of the callback is still there. -/
structure CallbackData where
  ptr : Nat
  valid : Bool
deriving DecidableEq, Repr

/-- The fields of `Rock::IoState` used by the swap directory. `readCallback` is
`read.callback` (`none` is NULL), `readCallbackData` is `read.callback_data`. -/
structure IoState where
  swap_dirn : Int
  swap_filen : Int
  payloadEnd : Int
  diskOffset : Int
  offset_ : Int
  readCallback : Option Nat
  readCallbackData : CallbackData
  theFile : Option DiskFile
deriving DecidableEq, Repr

/-- What `dynamic_cast<Rock::ReadRequest*>` yields: the request buffer `r->buf` and
the I/O state `request->sio` (`none` is a null pointer). -/
structure ReadRequest where
  buf : Nat
  sio : Option IoState
deriving DecidableEq, Repr

/-- What `dynamic_cast<Rock::WriteRequest*>` yields: `request->sio`. -/
structure WriteRequest where
  sio : Option IoState
deriving DecidableEq, Repr

/-- A call into code outside `src/`, recorded in the order it is made. -/
inductive Call where
  | openForWriting (key : cache_key) (answer : Option Int)
  | closeForWriting (fileno : Int) (lockForReading : Bool)
  | openForReading (key : cache_key) (answer : Option Int)
  | closeForReading (fileno : Int)
  | free (fileno : Int)
  | abortIo (fileno : Int)
  | full (answer : Bool)
  | finishedWriting (swap_filen : Int) (errflag : Int)
  | readCallback (callback : Nat) (cbdata : Nat) (buf : Nat) (rlen : Int) (swap_filen : Int)
  | hashInsert (key : cache_key)
  | replAdd (e : StoreEntry)
  | replRemove (e : StoreEntry)
  | purgeInit (max_scan : Int)
  | walkerNext (answer : Option StoreEntry)
  | walkerDone
  | release (e : StoreEntry)
deriving DecidableEq, Repr

/-- Whether a logged call is `e->release()`. -/
def Call.isRelease : Call → Bool
  | .release _ => true
  | _ => false

/-- Whether a logged call is `walker->Next(walker)`. -/
def Call.isWalkerNext : Call → Bool
  | .walkerNext _ => true
  | _ => false

/-- Whether a logged call is `repl->PurgeInit(repl, max_scan)`. -/
def Call.isPurgeInit : Call → Bool
  | .purgeInit _ => true
  | _ => false

/-- The state of a `Rock::SwapDir`. `repl` records whether a removal policy is
installed; `calls` is the log of calls into code outside `src/`. -/
structure SwapDir where
  index : Int
  max_size : Int
  max_objsize : Int
  theFile : Option DiskFile
  io : Option DiskIOStrategy
  map : Option DirMap
  repl : Bool
  calls : List Call

/-- Why the process stopped: a null pointer was dereferenced or the named
assertion failed. -/
inductive Abort where
  | nullDeref
  | diskOffset_filen_nonneg
  | diskOffsetLimit_map
  | disconnect_swap_dirn
  | disconnect_swap_filen
  | disconnect_swap_status
  | create_expectedReplySize
  | create_swap_hdr_sz
  | create_payloadEnd
  | create_diskOffsetLimit
  | open_payloadEnd
  | open_swap_file_sz_pos
  | open_swap_file_sz_eq
  | open_diskOffsetLimit
  | read_request
  | read_diskOffsetLimit
  | read_callback
  | write_request
  | write_sio
  | write_diskOffsetLimit
deriving DecidableEq, Repr

/-- Answers and constants of the code outside `src/`. The functions see the current
state of the swap directory, its call log included, so an answer may depend on
everything that happened before. -/
structure Env where
  /-- Constant `DISK_OK`. -/
  DISK_OK : Int
  /-- Bit number `ENTRY_CACHABLE` of the entry flags. -/
  ENTRY_CACHABLE : Nat
  /-- Bit number `RELEASE_REQUEST` of the entry flags. -/
  RELEASE_REQUEST : Nat
  /-- Bit number `KEY_PRIVATE` of the entry flags. -/
  KEY_PRIVATE : Nat
  /-- Bit number `ENTRY_VALIDATED` of the entry flags. -/
  ENTRY_VALIDATED : Nat
  /-- The slot `map->openForWriting(key, fileno)` locks, as its `fileno`. -/
  openForWriting : SwapDir → cache_key → Option Int
  /-- The slot `map->openForReading(key, fileno)` locks, as its `fileno`. -/
  openForReading : SwapDir → cache_key → Option Int
  /-- Whether `map->peekAtReader(fileno)` yields the slot. -/
  peekAtReader : SwapDir → Int → Bool
  /-- The answer of `map->full()`. -/
  mapFull : SwapDir → Bool
  /-- The base `::SwapDir::canStore(e, diskSpaceNeeded, load)`: its answer and the
  value it leaves in `load`. -/
  baseCanStore : SwapDir → StoreEntry → Int → Int → Bool × Int
  /-- The object `new IoState(this, &e, cbFile, cbIo, data)` constructs. -/
  newIoState : SwapDir → StoreEntry → IoState
  /-- The object `new StoreEntry()` constructs. -/
  newStoreEntry : StoreEntry
  /-- The answer of `walker->Next(walker)`. -/
  walkerNext : SwapDir → Option StoreEntry

/-- Appends one call to the log. -/
def SwapDir.log (d : SwapDir) (c : Call) : SwapDir :=
  { d with calls := d.calls ++ [c] }

/-- The calls made between two states of the same swap directory. -/
def newCalls (before after : SwapDir) : List Call :=
  after.calls.drop before.calls.length

/-- Macro `EBIT_SET(flag, bit)` (of `defines.h`, outside `src/`), `flag |= (1L << bit)`,
on an unsigned short. -/
def EBIT_SET (flag bit : Nat) : Nat :=
  (flag ||| (1 <<< bit)) % 2 ^ 16

/-- Macro `EBIT_CLR(flag, bit)` (of `defines.h`, outside `src/`),
`flag &= ~(1L << bit)`, on an unsigned short; the complement is taken in the 64 bits
of a long. -/
def EBIT_CLR (flag bit : Nat) : Nat :=
  (flag &&& (2 ^ 64 - 1 - (1 <<< bit) % 2 ^ 64)) % 2 ^ 16

/-! ## Disk layout -/

/-- Constant `Rock::SwapDir::HeaderSize = 16*1024`. -/
def HeaderSize : Int := 16 * 1024

/-- Method `Rock::SwapDir::diskOffset`. -/
def diskOffset (d : SwapDir) (filen : Int) : Except Abort Int :=
  if filen ≥ 0 then
    .ok (HeaderSize + d.max_objsize * filen)
  else
    .error .diskOffset_filen_nonneg

/-- Method `Rock::SwapDir::diskOffsetLimit`. -/
def diskOffsetLimit (d : SwapDir) : Except Abort Int :=
  match d.map with
  | none => .error .diskOffsetLimit_map
  | some m => diskOffset d m.entryLimit

/-! ## Reference tracking -/

/-- Method `Rock::SwapDir::trackReferences`. -/
def trackReferences (d : SwapDir) (e : StoreEntry) : SwapDir :=
  if d.repl then d.log (.replAdd e) else d

/-- Method `Rock::SwapDir::ignoreReferences`. -/
def ignoreReferences (d : SwapDir) (e : StoreEntry) : SwapDir :=
  if d.repl then d.log (.replRemove e) else d

/-! ## Lookup -/

/-- Method `Rock::SwapDir::get`. `hashInsert` (outside `src/`) stores the key in the
entry and joins the store table; the latter is the logged call. -/
def get (env : Env) (d : SwapDir) (key : cache_key) : Option StoreEntry × SwapDir :=
  match d.map with
  | none => (none, d)
  | some m =>
    let answer := env.openForReading d key
    let d1 := d.log (.openForReading key answer)
    match answer with
    | none => (none, d1)
    | some fileno =>
      let basics := (m.slots fileno).basics
      let e : StoreEntry :=
        { env.newStoreEntry with
          lock_count := 0
          swap_dirn := d.index
          swap_filen := fileno
          swap_file_sz := basics.swap_file_sz
          lastref := basics.lastref
          timestamp := basics.timestamp
          expires := basics.expires
          lastmod := basics.lastmod
          refcount := basics.refcount
          flags := basics.flags
          store_status := .STORE_OK
          mem_status := .NOT_IN_MEMORY
          swap_status := .SWAPOUT_DONE
          ping_status := .PING_NONE }
      let e := { e with flags := EBIT_SET e.flags env.ENTRY_CACHABLE }
      let e := { e with flags := EBIT_CLR e.flags env.RELEASE_REQUEST }
      let e := { e with flags := EBIT_CLR e.flags env.KEY_PRIVATE }
      let e := { e with flags := EBIT_SET e.flags env.ENTRY_VALIDATED }
      let e := { e with key := key }
      let d2 := d1.log (.hashInsert key)
      (some e, trackReferences d2 e)

/-- Method `Rock::SwapDir::disconnect`. -/
def disconnect (d : SwapDir) (e : StoreEntry) : Except Abort (StoreEntry × SwapDir) :=
  if e.swap_dirn ≠ d.index then .error .disconnect_swap_dirn
  else if ¬ e.swap_filen ≥ 0 then .error .disconnect_swap_filen
  else if e.swap_status = .SWAPOUT_NONE then .error .disconnect_swap_status
  else
    match d.map with
    | none => .error .nullDeref
    | some _ =>
      let d1 := d.log (.abortIo e.swap_filen)
      .ok ({ e with swap_dirn := -1, swap_filen := -1, swap_status := .SWAPOUT_NONE }, d1)

/-- Method `Rock::SwapDir::unlink`. -/
def unlink (d : SwapDir) (e : StoreEntry) : Except Abort (StoreEntry × SwapDir) :=
  let d1 := ignoreReferences d e
  match d1.map with
  | none => .error .nullDeref
  | some _ => disconnect (d1.log (.free e.swap_filen)) e

/-! ## Admission -/

/-- Method `Rock::SwapDir::canStore`; the result is the returned flag and the value
of the reference parameter `load` on return. -/
def canStore (env : Env) (d : SwapDir) (e : StoreEntry) (diskSpaceNeeded : Int)
    (load : Int) : Except Abort (Bool × Int) :=
  let base := env.baseCanStore d e (sizeofDbCellHeader + diskSpaceNeeded) load
  if !base.1 then .ok (false, base.2)
  else
    match d.theFile with
    | none => .ok (false, base.2)
    | some f =>
      if !f.canWrite then .ok (false, base.2)
      else
        match d.map with
        | none => .ok (false, base.2)
        | some _ =>
          match d.io with
          | none => .error .nullDeref
          | some io =>
            if io.shedLoad then .ok (false, base.2)
            else .ok (true, io.load)

/-! ## Opening cells -/

/-- Method `Rock::SwapDir::createStoreIO`. The result is the returned `IoState`
(`none` is NULL), the entry and the swap directory afterwards. -/
def createStoreIO (env : Env) (d : SwapDir) (e : StoreEntry) :
    Except Abort (Option IoState × StoreEntry × SwapDir) :=
  match d.theFile with
  | none => .ok (none, e, d)
  | some f =>
    if f.error then .ok (none, e, d)
    else
      match e.mem_obj with
      | none => .error .nullDeref
      | some mem_obj =>
        let expectedReplySize := mem_obj.expectedReplySize
        if ¬ expectedReplySize ≥ 0 then .error .create_expectedReplySize
        else if ¬ mem_obj.swap_hdr_sz > 0 then .error .create_swap_hdr_sz
        else
          let header : DbCellHeader := { payloadSize := mem_obj.swap_hdr_sz + expectedReplySize }
          let payloadEnd := sizeofDbCellHeader + header.payloadSize
          if ¬ payloadEnd ≤ d.max_objsize then .error .create_payloadEnd
          else
            match d.map with
            | none => .error .nullDeref
            | some m =>
              let answer := env.openForWriting d e.key
              let d1 := d.log (.openForWriting e.key answer)
              match answer with
              | none => .ok (none, e, d1)
              | some fileno =>
                let e1 := { e with swap_file_sz := header.payloadSize }
                let m1 := { m with slots := Function.update m.slots fileno ((m.slots fileno).set e1) }
                let m2 := { m1 with extras := Function.update m1.extras fileno header }
                let d2 := { d1 with map := some m2 }
                let sio := env.newIoState d2 e1
                let sio := { sio with swap_dirn := d2.index }
                let sio := { sio with swap_filen := fileno }
                let sio := { sio with payloadEnd := payloadEnd }
                match diskOffset d2 sio.swap_filen with
                | .error a => .error a
                | .ok off =>
                  let sio := { sio with diskOffset := off }
                  match diskOffsetLimit d2 with
                  | .error a => .error a
                  | .ok limit =>
                    if ¬ sio.diskOffset + payloadEnd ≤ limit then .error .create_diskOffsetLimit
                    else
                      let sio := { sio with theFile := d2.theFile }
                      .ok (some sio, e1, trackReferences d2 e1)

/-- Method `Rock::SwapDir::openStoreIO`. The result is the returned `IoState`
(`none` is NULL); the method changes neither the entry nor the swap directory. -/
def openStoreIO (env : Env) (d : SwapDir) (e : StoreEntry) : Except Abort (Option IoState) :=
  match d.theFile with
  | none => .ok none
  | some f =>
    if f.error then .ok none
    else if e.swap_filen < 0 then .ok none
    else
      match d.map with
      | none => .error .nullDeref
      | some m =>
        if !env.peekAtReader d e.swap_filen then .ok none
        else
          let slot := m.slots e.swap_filen
          let sio := env.newIoState d e
          let sio := { sio with swap_dirn := d.index }
          let sio := { sio with swap_filen := e.swap_filen }
          let sio := { sio with payloadEnd := sizeofDbCellHeader + (m.extras e.swap_filen).payloadSize }
          if ¬ sio.payloadEnd ≤ d.max_objsize then .error .open_payloadEnd
          else if ¬ slot.basics.swap_file_sz > 0 then .error .open_swap_file_sz_pos
          else if ¬ slot.basics.swap_file_sz = e.swap_file_sz then .error .open_swap_file_sz_eq
          else
            match diskOffset d sio.swap_filen with
            | .error a => .error a
            | .ok off =>
              let sio := { sio with diskOffset := off }
              match diskOffsetLimit d with
              | .error a => .error a
              | .ok limit =>
                if ¬ sio.diskOffset + sio.payloadEnd ≤ limit then .error .open_diskOffsetLimit
                else .ok (some { sio with theFile := d.theFile })

/-! ## I/O completion -/

/-- Method `Rock::SwapDir::readCompleted`; `r` is what the dynamic cast of the
request yields (`none` is a null pointer). The result is the I/O state of the
request and the swap directory afterwards. The `buf` parameter of the method is
not used by it. -/
def readCompleted (env : Env) (d : SwapDir) (_buf : Nat) (rlen : Int) (errflag : Int)
    (r : Option ReadRequest) : Except Abort (IoState × SwapDir) :=
  match r with
  | none => .error .read_request
  | some request =>
    match request.sio with
    | none => .error .nullDeref
    | some sio =>
      let sio := if errflag = env.DISK_OK ∧ rlen > 0 then
          { sio with offset_ := sio.offset_ + rlen }
        else sio
      match diskOffsetLimit d with
      | .error a => .error a
      | .ok limit =>
        if ¬ sio.diskOffset + sio.offset_ ≤ limit then .error .read_diskOffsetLimit
        else
          match sio.readCallback with
          | none => .error .read_callback
          | some callback =>
            let sio := { sio with readCallback := none }
            if sio.readCallbackData.valid then
              .ok (sio, d.log (.readCallback callback sio.readCallbackData.ptr request.buf rlen
                sio.swap_filen))
            else .ok (sio, d)

/-- Method `Rock::SwapDir::writeCompleted`; `r` is what the dynamic cast of the
request yields (`none` is a null pointer). -/
def writeCompleted (env : Env) (d : SwapDir) (errflag : Int) (_rlen : Nat)
    (r : Option WriteRequest) : Except Abort SwapDir :=
  match r with
  | none => .error .write_request
  | some request =>
    match request.sio with
    | none => .error .write_sio
    | some sio =>
      match d.map with
      | none => .error .nullDeref
      | some _ =>
        let d1 := if errflag = env.DISK_OK then
            d.log (.closeForWriting sio.swap_filen true)
          else
            d.log (.free sio.swap_filen)
        match diskOffsetLimit d1 with
        | .error a => .error a
        | .ok limit =>
          if ¬ sio.diskOffset + sio.offset_ ≤ limit then .error .write_diskOffsetLimit
          else .ok (d1.log (.finishedWriting sio.swap_filen errflag))

/-! ## Maintenance -/

/-- Method `Rock::SwapDir::full`, `map && map->full()`; the call of `map->full()` is
logged with its answer. -/
def full (env : Env) (d : SwapDir) : Bool × SwapDir :=
  match d.map with
  | none => (false, d)
  | some _ =>
    let answer := env.mapFull d
    (answer, d.log (.full answer))

/-- The purge loop of `Rock::SwapDir::maintain`:
`for (; freed < maxFreed && full(); ++freed)`. The result is the state and the
value of `freed` when the loop is left. -/
def maintainLoop (env : Env) (maxFreed : Nat) (d : SwapDir) (freed : Nat) : SwapDir × Nat :=
  if freed < maxFreed then
    let r := full env d
    if r.1 then
      match env.walkerNext r.2 with
      | some e =>
        maintainLoop env maxFreed ((r.2.log (.walkerNext (some e))).log (.release e)) (freed + 1)
      | none => (r.2.log (.walkerNext none), freed)
    else (r.2, freed)
  else (d, freed)
termination_by maxFreed - freed

/-- Method `Rock::SwapDir::maintain`; `store_dirs_rebuilding` is the global counter
`StoreController::store_dirs_rebuilding`. -/
def maintain (env : Env) (d : SwapDir) (store_dirs_rebuilding : Int) : SwapDir :=
  if !d.repl then d
  else
    match d.map with
    | none => d
    | some _ =>
      let r := full env d
      if !r.1 then r.2
      else if store_dirs_rebuilding ≠ 0 then r.2
      else
        let maxProbed : Int := 10000
        let d1 := r.2.log (.purgeInit maxProbed)
        let maxFreed : Nat := 1000
        let l := maintainLoop env maxFreed d1 0
        let d2 := l.1.log .walkerDone
        (full env d2).2

/-! ## A small configuration

The scenario of the specification: cells of 4096 bytes and an entry limit of 4. -/

/-- A freshly constructed entry with a memory object of 20 header bytes and 100
expected reply bytes. -/
def exampleEntry : StoreEntry :=
  { key := 1
    lock_count := 0
    swap_dirn := -1
    swap_filen := -1
    swap_file_sz := 0
    lastref := 0
    timestamp := 0
    expires := 0
    lastmod := 0
    refcount := 0
    flags := 0
    store_status := .STORE_PENDING
    mem_status := .IN_MEMORY
    swap_status := .SWAPOUT_NONE
    ping_status := .PING_NONE
    mem_obj := some { swap_hdr_sz := 20, expectedReplySize := 100 } }

/-- An entry stored in cell 2 of swap directory 0. -/
def exampleStored : StoreEntry :=
  { exampleEntry with swap_dirn := 0, swap_filen := 2, swap_file_sz := 120, swap_status := .SWAPOUT_DONE }

/-- A freshly constructed I/O state. -/
def exampleIoState : IoState :=
  { swap_dirn := -1
    swap_filen := -1
    payloadEnd := 0
    diskOffset := 0
    offset_ := 0
    readCallback := none
    readCallbackData := { ptr := 0, valid := false }
    theFile := none }

/-- Answers of the surrounding code in the example: keys map to the cell
`key % 4`, the map stays full until two entries have been released, and the Squid
values of the constants. -/
def exampleEnv : Env :=
  { DISK_OK := 0
    ENTRY_CACHABLE := 5
    RELEASE_REQUEST := 3
    KEY_PRIVATE := 7
    ENTRY_VALIDATED := 10
    openForWriting := fun _ key => some ((key % 4 : Nat) : Int)
    openForReading := fun _ key => some ((key % 4 : Nat) : Int)
    peekAtReader := fun _ _ => true
    mapFull := fun d => decide ((d.calls.filter Call.isRelease).length < 2)
    baseCanStore := fun d _ need load => (decide (need ≤ d.max_objsize), load)
    newIoState := fun _ _ => exampleIoState
    newStoreEntry := exampleEntry
    walkerNext := fun _ => some exampleStored }

/-- A map of four slots; slot 2 holds an object of 120 bytes with flags
`RELEASE_REQUEST | KEY_PRIVATE`. -/
def exampleMap : DirMap :=
  { entryLimit := 4
    slots := fun _ =>
      { key := 2
        basics :=
          { timestamp := 11
            lastref := 12
            expires := 13
            lastmod := 14
            swap_file_sz := 120
            refcount := 1
            flags := 136 } }
    extras := fun _ => { payloadSize := 120 } }

/-- A swap directory over `exampleMap` with a usable file. -/
def exampleDir : SwapDir :=
  { index := 0
    max_size := 1024
    max_objsize := 4096
    theFile := some { error := false, canWrite := true }
    io := some { shedLoad := false, load := 10 }
    map := some exampleMap
    repl := false
    calls := [] }

/-- An I/O state reading cell 2: ten bytes delivered so far, a pending read
callback 77 whose owner is gone. -/
def exampleReading : IoState :=
  { swap_dirn := 0
    swap_filen := 2
    payloadEnd := 128
    diskOffset := 16384 + 4096 * 2
    offset_ := 10
    readCallback := some 77
    readCallbackData := { ptr := 99, valid := false }
    theFile := some { error := false, canWrite := true } }

/-- The same I/O state with the owner of the callback still there. -/
def exampleReadingValid : IoState :=
  { exampleReading with readCallbackData := { ptr := 99, valid := true } }

/-- A swap directory with a removal policy installed. -/
def exampleDirRepl : SwapDir :=
  { exampleDir with repl := true }

/-! ## Shape of the purge log -/

/-- The calls of `es.length` completed rounds of the purge loop: `full()` answered
true, the walker handed out an entry, the entry was released. -/
def purgeRounds : List StoreEntry → List Call
  | [] => []
  | e :: es => .full true :: .walkerNext (some e) :: .release e :: purgeRounds es

/-- Every `release` in the log comes right after a `full()` that answered true and
the `Next` that handed out the released entry. -/
def ReleasesGuarded (l : List Call) : Prop :=
  ∀ (pre : List Call) (e : StoreEntry) (post : List Call), l = pre ++ .release e :: post →
    ∃ pre', pre = pre' ++ [.full true, .walkerNext (some e)]

/-! ## Rebuild -/

/-- Method `Rock::SwapDir::addEntry`; `src` is its parameter `from`. The result is
the returned flag and the swap directory afterwards. -/
def addEntry (env : Env) (d : SwapDir) (fileno : Int) (header : DbCellHeader)
    (src : StoreEntry) : Except Abort (Bool × SwapDir) :=
  match d.map with
  | none => .error .nullDeref
  | some m =>
    let answer := env.openForWriting d src.key
    let d1 := d.log (.openForWriting src.key answer)
    match answer with
    | some newLocation =>
      let d2 :=
        if fileno = newLocation then
          let m1 := { m with
            slots := Function.update m.slots newLocation ((m.slots newLocation).set src) }
          let m2 := { m1 with extras := Function.update m1.extras fileno header }
          { d1 with map := some m2 }
        else d1
      let d3 := d2.log (.closeForWriting newLocation false)
      .ok (decide (fileno = newLocation), d3)
    | none => .ok (false, d1)

/-! ## Sizing and configuration -/

/-- Method `Rock::SwapDir::entryLimitAllowed`. The arguments `maximumSize`,
`maxObjectSize` and `entryLimitHigh` are the values of the methods of these names,
which are defined outside `src/`. The division is that of C++, truncating towards
zero; `none` stands for a division by zero. -/
def entryLimitAllowed (d : SwapDir) (maximumSize maxObjectSize entryLimitHigh : Int) :
    Option Int :=
  let eLimitLo : Int :=
    match d.map with
    | some m => m.entryLimit
    | none => 0
  if maxObjectSize = 0 then none
  else
    let eWanted : Int := Int.tdiv (maximumSize - HeaderSize) maxObjectSize
    some (min (max eLimitLo eWanted) entryLimitHigh)

/-- Modelled from the spec: `DirMap::Init(path, limit)` is outside `src/`; the spec
says the coordinator creates the shared segment once, with a header whose `limit`
is immutable after creation and a flat array of cells that start empty. -/
def DirMap.Init (limit : Int) : DirMap :=
  { entryLimit := limit
    slots := fun _ =>
      { key := 0
        basics :=
          { timestamp := 0
            lastref := 0
            expires := 0
            lastmod := 0
            swap_file_sz := 0
            refcount := 0
            flags := 0 } }
    extras := fun _ => { payloadSize := 0 } }

/-- One of the configured cache directories, `INDEXSD(i)`, that the dynamic cast
finds to be a `Rock::SwapDir`: the directory and the values of its `maximumSize()`
and `maxObjectSize()`. -/
structure ConfiguredDir where
  sd : SwapDir
  maximumSize : Int
  maxObjectSize : Int

/-- The loop of `RockSwapDirRr::run` over the configured directories (`none` is one
that is not a `Rock::SwapDir`): each Rock directory gets a map made by
`DirMap::Init(sd->path, sd->entryLimitAllowed())`, pushed to `owners`. -/
def RockSwapDirRr.loop (entryLimitHigh : Int) :
    List DirMap → List (Option ConfiguredDir) → Option (List DirMap)
  | owners, [] => some owners
  | owners, none :: rest => RockSwapDirRr.loop entryLimitHigh owners rest
  | owners, some c :: rest =>
    match entryLimitAllowed c.sd c.maximumSize c.maxObjectSize entryLimitHigh with
    | none => none
    | some limit => RockSwapDirRr.loop entryLimitHigh (owners ++ [DirMap.Init limit]) rest

/-- Method `RockSwapDirRr::run`, the only place where maps are created; the result
is `owners` afterwards, `none` when `Must(owners.empty())` throws or a division by
zero stops the process. -/
def RockSwapDirRr.run (IamMasterProcess : Bool) (entryLimitHigh : Int) (owners : List DirMap)
    (dirs : List (Option ConfiguredDir)) : Option (List DirMap) :=
  if IamMasterProcess then
    if !owners.isEmpty then none
    else RockSwapDirRr.loop entryLimitHigh owners dirs
  else some owners

/-- The calls of `fatal()` in the configuration code, by their message. -/
inductive Fatal where
  | negativeSize
  | positiveMaxObjsizeRequired
deriving DecidableEq, Repr

/-- The value of a 32-bit `int` that holds `x` modulo `2 ^ 32`. -/
def toInt32 (x : Int) : Int :=
  (x + 2 ^ 31) % 2 ^ 32 - 2 ^ 31

/-- Conversion to `uint64_t`. -/
def toUInt64 (x : Int) : Int :=
  x % 2 ^ 64

/-- Method `Rock::SwapDir::parseSize`. `GetInteger` is the `int` that `GetInteger()`
returns, so the shift is done in 32 bits. `toMaxSize` is the conversion to the type
of the member `max_size`, which is declared outside `src/`: `toUInt64` for the
`uint64_t` that `statfs` prints it as (`PRIu64`), the identity for a signed 64-bit
type. -/
def parseSize (toMaxSize : Int → Int) (d : SwapDir) (GetInteger : Int) :
    Except Fatal SwapDir :=
  let d1 := { d with max_size := toMaxSize (toInt32 (GetInteger * 2 ^ 10)) }
  if d1.max_size < 0 then .error .negativeSize
  else .ok d1

/-- Method `Rock::SwapDir::validateOptions`. -/
def validateOptions (d : SwapDir) : Except Fatal Unit :=
  if d.max_objsize ≤ 0 then .error .positiveMaxObjsizeRequired
  else .ok ()

/-! ## Slot locks -/

/-- The lock counters of class `Rock::Slot` (`RockDirMap.h`): `readers` and
`writers`. -/
structure Slot where
  readers : Int
  writers : Int
deriving DecidableEq, Repr

/-- Modelled from the spec: `Rock::Slot::sharedLock` is only declared under `src/`;
the spec says it atomically increments `readers` only if `writers == 0`, and
otherwise reverts and returns false. -/
def Slot.sharedLock (s : Slot) : Bool × Slot :=
  if s.writers = 0 then (true, { s with readers := s.readers + 1 })
  else (false, s)

/-- Modelled from the spec: `Rock::Slot::exclusiveLock` is only declared under
`src/`; the spec says it atomically sets `writers` from 0 to 1 only if
`readers == 0`, and otherwise returns false. -/
def Slot.exclusiveLock (s : Slot) : Bool × Slot :=
  if s.writers = 0 ∧ s.readers = 0 then (true, { s with writers := 1 })
  else (false, s)

/-- Modelled from the spec: `Rock::Slot::releaseSharedLock` is only declared under
`src/`; the spec says it decrements `readers`. -/
def Slot.releaseSharedLock (s : Slot) : Slot :=
  { s with readers := s.readers - 1 }

/-- Modelled from the spec: `Rock::Slot::releaseExclusiveLock` is only declared
under `src/`; the spec says it decrements `writers`. -/
def Slot.releaseExclusiveLock (s : Slot) : Slot :=
  { s with writers := s.writers - 1 }

/-- A call of one of the four lock methods. -/
inductive LockCall where
  | sharedLock
  | exclusiveLock
  | releaseSharedLock
  | releaseExclusiveLock
deriving DecidableEq, Repr

/-- A slot together with the numbers of successful `sharedLock` and
`exclusiveLock` calls that have not been undone yet. -/
structure LockedSlot where
  slot : Slot
  sharedHeld : Nat
  exclusiveHeld : Nat
deriving DecidableEq, Repr

/-- A slot on which no lock method has been called yet. -/
def LockedSlot.fresh : LockedSlot :=
  { slot := { readers := 0, writers := 0 }, sharedHeld := 0, exclusiveHeld := 0 }

/-- One lock call. A release is only allowed to undo a successful lock: `none`
when there is none to undo. -/
def LockedSlot.call (l : LockedSlot) : LockCall → Option LockedSlot
  | .sharedLock =>
    let r := l.slot.sharedLock
    some { l with slot := r.2, sharedHeld := if r.1 then l.sharedHeld + 1 else l.sharedHeld }
  | .exclusiveLock =>
    let r := l.slot.exclusiveLock
    some { l with
      slot := r.2, exclusiveHeld := if r.1 then l.exclusiveHeld + 1 else l.exclusiveHeld }
  | .releaseSharedLock =>
    if l.sharedHeld = 0 then none
    else some { l with slot := l.slot.releaseSharedLock, sharedHeld := l.sharedHeld - 1 }
  | .releaseExclusiveLock =>
    if l.exclusiveHeld = 0 then none
    else some { l with
      slot := l.slot.releaseExclusiveLock, exclusiveHeld := l.exclusiveHeld - 1 }

/-- A sequence of lock calls, in order. -/
def LockedSlot.calls (l : LockedSlot) : List LockCall → Option LockedSlot
  | [] => some l
  | c :: cs =>
    match l.call c with
    | none => none
    | some l1 => l1.calls cs

end Rock

/-! ## Kid processes (`src/ipc/Kid.cc`) -/

/-- The data members of class `Kid` that `start` and `stop` use. -/
structure Kid where
  badFailures : Int
  pid : Int
  startTime : Int
  isRunning : Bool
  status : Int
deriving DecidableEq, Repr

namespace Kid

/-- The assertions of `Kid.cc`. -/
inductive Abort where
  | start_running
  | start_cpid
  | stop_running
  | stop_startTime
  | getPid_pid
deriving DecidableEq, Repr

/-- Constructor `Kid::Kid()`; it leaves `status` as it finds it. -/
def fresh (status : Int) : Kid :=
  { badFailures := 0, pid := -1, startTime := 0, isRunning := false, status := status }

/-- Method `Kid::running`. -/
def running (k : Kid) : Bool :=
  k.isRunning

/-- Method `Kid::start`; `now` is what `time()` stores in `startTime`. -/
def start (k : Kid) (cpid : Int) (now : Int) : Except Abort Kid :=
  if k.running then .error .start_running
  else if ¬ cpid > 0 then .error .start_cpid
  else .ok { k with isRunning := true, pid := cpid, startTime := now }

/-- Method `Kid::stop`; `now` is what `time()` stores in `stop_time`, and
`fastFailureTimeLimit` is the constant of that name, defined outside `src/`. -/
def stop (fastFailureTimeLimit : Int) (k : Kid) (exitStatus : Int) (now : Int) :
    Except Abort Kid :=
  if ¬ k.running then .error .stop_running
  else if ¬ k.startTime ≠ 0 then .error .stop_startTime
  else
    let k1 := { k with isRunning := false }
    let stop_time := now
    let k2 :=
      if stop_time - k1.startTime < fastFailureTimeLimit then
        { k1 with badFailures := k1.badFailures + 1 }
      else { k1 with badFailures := 0 }
    .ok { k2 with status := exitStatus }

/-- Method `Kid::getPid`. -/
def getPid (k : Kid) : Except Abort Int :=
  if ¬ k.pid > 0 then .error .getPid_pid
  else .ok k.pid

/-- Method `Kid::hopeless`; `badFailureLimit` is the constant of that name, defined
outside `src/`. -/
def hopeless (badFailureLimit : Int) (k : Kid) : Bool :=
  decide (k.badFailures > badFailureLimit)

/-- One life of a kid process: the pid and time given to `start`, the exit status
and time given to `stop`. -/
structure Run where
  cpid : Int
  startTime : Int
  exitStatus : Int
  stopTime : Int
deriving DecidableEq, Repr

/-- A run that counts as a fast failure in `stop`. -/
def Run.fast (fastFailureTimeLimit : Int) (r : Run) : Bool :=
  decide (r.stopTime - r.startTime < fastFailureTimeLimit)

/-- The calls `start` and then `stop` of one run. -/
def run (fastFailureTimeLimit : Int) (k : Kid) (r : Run) : Except Abort Kid :=
  match start k r.cpid r.startTime with
  | .error a => .error a
  | .ok k1 => stop fastFailureTimeLimit k1 r.exitStatus r.stopTime

/-- A sequence of runs, in order. -/
def runs (fastFailureTimeLimit : Int) (k : Kid) : List Run → Except Abort Kid
  | [] => .ok k
  | r :: rs =>
    match run fastFailureTimeLimit k r with
    | .error a => .error a
    | .ok k1 => runs fastFailureTimeLimit k1 rs

/-- The number of fast failures at the end of a sequence of runs. -/
def trailingFast (fastFailureTimeLimit : Int) (rs : List Run) : Nat :=
  (rs.reverse.takeWhile (Run.fast fastFailureTimeLimit)).length

/-- Five runs of one second each, with pids 7 to 11. -/
def exampleFailures : List Run :=
  [⟨7, 100, 1, 101⟩, ⟨8, 102, 1, 103⟩, ⟨9, 104, 1, 105⟩, ⟨10, 106, 1, 107⟩, ⟨11, 108, 1, 109⟩]

end Kid

namespace Rock

/-! ## Theorems -/

theorem cell_within_limit_arith (objsize fileno limit payloadEnd : Int) (hobj : objsize > 0)
    (hlt : fileno < limit) (hp : payloadEnd ≤ objsize) :
    HeaderSize + objsize * fileno + payloadEnd ≤ HeaderSize + objsize * limit := by
  have h1 : objsize * (fileno + 1) ≤ objsize * limit :=
    Int.mul_le_mul_of_nonneg_left (by omega) (le_of_lt hobj)
  have h2 : objsize * (fileno + 1) = objsize * fileno + objsize := by ring
  omega

/-- C1: `diskOffset(fileno)` is `HeaderSize + max_objsize * fileno` for every
`fileno >= 0`, with `HeaderSize = 16384`, and `diskOffsetLimit()` is
`diskOffset(map->entryLimit())`. -/
theorem diskOffset_layout (d : SwapDir) :
    HeaderSize = 16384 ∧
    (∀ fileno : Int, fileno ≥ 0 →
      diskOffset d fileno = .ok (HeaderSize + d.max_objsize * fileno)) ∧
    (∀ m : DirMap, d.map = some m → diskOffsetLimit d = diskOffset d m.entryLimit) := by
  refine ⟨rfl, ?_, ?_⟩
  · intro fileno h
    simp [diskOffset, h]
  · intro m hm
    simp [diskOffsetLimit, hm]

theorem diskOffset_layout_witness :
    ((3 : Int) ≥ 0 ∧ diskOffset exampleDir 3 = .ok (16384 + 4096 * 3)) ∧
    (exampleDir.map = some exampleMap ∧ diskOffsetLimit exampleDir = diskOffset exampleDir 4) :=
  ⟨⟨by decide, (diskOffset_layout exampleDir).2.1 3 (by decide)⟩,
    ⟨rfl, (diskOffset_layout exampleDir).2.2 exampleMap rfl⟩⟩

/-- C2: with `max_objsize > 0`, a `fileno` in `[0, entryLimit())` and
`payloadEnd <= max_objsize`, `diskOffset(fileno) + payloadEnd <= diskOffsetLimit()`.
Hence, when the directory hands out such a `fileno`, `createStoreIO` and
`openStoreIO` can only be stopped by one of the assertions that come before
`sio->diskOffset + payloadEnd <= diskOffsetLimit()`, never by that one. -/
theorem cell_within_limit (env : Env) (d : SwapDir) (m : DirMap) (fileno payloadEnd : Int)
    (hmap : d.map = some m) (hobj : d.max_objsize > 0) (h0 : 0 ≤ fileno)
    (hlt : fileno < m.entryLimit) (hp : payloadEnd ≤ d.max_objsize) :
    (∃ off limit, diskOffset d fileno = .ok off ∧ diskOffsetLimit d = .ok limit ∧
      off + payloadEnd ≤ limit) ∧
    (∀ (e : StoreEntry) (a : Abort), env.openForWriting d e.key = some fileno →
       createStoreIO env d e = .error a →
      a = .nullDeref ∨ a = .create_expectedReplySize ∨ a = .create_swap_hdr_sz ∨
        a = .create_payloadEnd) ∧
    (∀ (e : StoreEntry) (a : Abort), e.swap_filen = fileno →
       openStoreIO env d e = .error a →
      a = .open_payloadEnd ∨ a = .open_swap_file_sz_pos ∨ a = .open_swap_file_sz_eq) := by
  have hlim : 0 ≤ m.entryLimit := by omega
  refine ⟨?_, ?_, ?_⟩
  · refine ⟨HeaderSize + d.max_objsize * fileno, HeaderSize + d.max_objsize * m.entryLimit,
      ?_, ?_, ?_⟩
    · simp [diskOffset, h0]
    · simp [diskOffsetLimit, hmap, diskOffset, hlim]
    · exact cell_within_limit_arith _ _ _ _ hobj hlt hp
  · intro e a hopen h
    unfold createStoreIO at h
    simp only [hmap, hopen, diskOffset, diskOffsetLimit, SwapDir.log, ge_iff_le, h0, hlim,
      ↓reduceIte] at h
    repeat' split at h
    all_goals try (simp at h; done)
    all_goals try (simp at h; simp [← h]; done)
    rename_i hpe hle
    exact absurd (cell_within_limit_arith _ _ _ _ hobj hlt (not_not.mp hpe)) hle
  · intro e a hfilen h
    unfold openStoreIO at h
    simp only [hmap, hfilen, diskOffset, diskOffsetLimit, ge_iff_le, h0, hlim,
      ↓reduceIte] at h
    repeat' split at h
    all_goals try (simp at h; done)
    all_goals try (simp at h; simp [← h]; done)
    rename_i hpe _ _ hle
    exact absurd (cell_within_limit_arith _ _ _ _ hobj hlt (not_not.mp hpe)) hle

theorem cell_within_limit_witness :
    (exampleDir.map = some exampleMap ∧ exampleDir.max_objsize > 0 ∧ (0 : Int) ≤ 3 ∧
      (3 : Int) < exampleMap.entryLimit ∧ (4096 : Int) ≤ exampleDir.max_objsize) ∧
    ∃ off limit, diskOffset exampleDir 3 = .ok off ∧ diskOffsetLimit exampleDir = .ok limit ∧
      off + 4096 ≤ limit :=
  ⟨⟨rfl, by decide, by decide, by decide, by decide⟩,
    ( cell_within_limit exampleEnv exampleDir exampleMap 3 4096 rfl (by decide) (by decide)
      (by decide) (by decide)).1⟩

/-- C3: when `createStoreIO` succeeds, the I/O state has
`payloadEnd = sizeof(DbCellHeader) + swap_hdr_sz + expectedReplySize`, the cell
header stored for the returned `fileno` has
`payloadSize = swap_hdr_sz + expectedReplySize`, the entry leaves with
`swap_file_sz` set to that `payloadSize`, the slot was stamped from the entry
after that assignment, and the I/O state carries the `fileno` that
`openForWriting` returned and `diskOffset(fileno)`. -/
theorem createStoreIO_stamps (env : Env) (d d' : SwapDir) (e e' : StoreEntry) (sio : IoState)
    (h : createStoreIO env d e = .ok (some sio, e', d')) :
    ∃ (mem_obj : MemObject) (m m' : DirMap) (fileno : Int),
      e.mem_obj = some mem_obj ∧ d.map = some m ∧ d'.map = some m' ∧
      env.openForWriting d e.key = some fileno ∧
      sio.payloadEnd = sizeofDbCellHeader + mem_obj.swap_hdr_sz + mem_obj.expectedReplySize ∧
      (m'.extras fileno).payloadSize = mem_obj.swap_hdr_sz + mem_obj.expectedReplySize ∧
      e' = { e with swap_file_sz := mem_obj.swap_hdr_sz + mem_obj.expectedReplySize } ∧
      m'.slots fileno = (m.slots fileno).set e' ∧
      (m'.slots fileno).basics.swap_file_sz = mem_obj.swap_hdr_sz + mem_obj.expectedReplySize ∧
      sio.swap_filen = fileno ∧
      diskOffset d fileno = .ok sio.diskOffset := by
  unfold createStoreIO at h
  simp only [] at h
  repeat' split at h
  all_goals try (simp at h; done)
  rename_i _ f hf hfe _ mo hmo hexp hhdr hpe _ m hm _ fileno hopen _ off hoff _ limit hlimit hle
  simp only [Except.ok.injEq, Prod.mk.injEq, Option.some.injEq] at h
  obtain ⟨hsio, he, hd⟩ := h
  subst hsio he
  refine ⟨mo, m,
    { m with
      slots := Function.update m.slots fileno
        ((m.slots fileno).set { e with swap_file_sz := mo.swap_hdr_sz + mo.expectedReplySize })
      extras := Function.update m.extras fileno
        { payloadSize := mo.swap_hdr_sz + mo.expectedReplySize } },
    fileno, hmo, hm, ?_, hopen, ?_⟩
  · rw [← hd]; simp only [trackReferences, SwapDir.log]; split <;> rfl
  · simp [StoreMapSlot.set, add_assoc]
    simpa [diskOffset, SwapDir.log] using hoff

theorem createStoreIO_stamps_witness :
    ∃ (sio : IoState) (e' : StoreEntry) (d' : SwapDir),
       createStoreIO exampleEnv exampleDir exampleEntry = .ok (some sio, e', d') ∧
      ∃ (mem_obj : MemObject) (m m' : DirMap) (fileno : Int),
        exampleEntry.mem_obj = some mem_obj ∧ exampleDir.map = some m ∧ d'.map = some m' ∧
        exampleEnv.openForWriting exampleDir exampleEntry.key = some fileno ∧
        sio.payloadEnd = sizeofDbCellHeader + mem_obj.swap_hdr_sz + mem_obj.expectedReplySize ∧
        (m'.extras fileno).payloadSize = mem_obj.swap_hdr_sz + mem_obj.expectedReplySize ∧
        e' = { exampleEntry with
          swap_file_sz := mem_obj.swap_hdr_sz + mem_obj.expectedReplySize } ∧
        m'.slots fileno = (m.slots fileno).set e' ∧
        (m'.slots fileno).basics.swap_file_sz =
          mem_obj.swap_hdr_sz + mem_obj.expectedReplySize ∧
        sio.swap_filen = fileno ∧
        diskOffset exampleDir fileno = .ok sio.diskOffset :=
  ⟨_, _, _, rfl, createStoreIO_stamps exampleEnv exampleDir _ exampleEntry _ _ rfl⟩

/-- C4: a write completion that passes the assertions of `writeCompleted` makes
exactly one call into the directory, on the I/O state's `swap_filen`:
`closeForWriting(swap_filen, true)` when `errflag == DISK_OK` and
`free(swap_filen)` otherwise; after it, it calls `finishedWriting(errflag)` with the
same `errflag`, and nothing else. -/
theorem writeCompleted_calls (env : Env) (d : SwapDir) (m : DirMap) (errflag : Int) (rlen : Nat)
    (request : WriteRequest) (sio : IoState) (hsio : request.sio = some sio)
    (hmap : d.map = some m) (hlimit : 0 ≤ m.entryLimit)
    (hpost : sio.diskOffset + sio.offset_ ≤ HeaderSize + d.max_objsize * m.entryLimit) :
    ∃ d', writeCompleted env d errflag rlen (some request) = .ok d' ∧
      (errflag = env.DISK_OK →
        d'.calls = d.calls ++
          [.closeForWriting sio.swap_filen true, .finishedWriting sio.swap_filen errflag]) ∧
      (errflag ≠ env.DISK_OK →
        d'.calls = d.calls ++
          [.free sio.swap_filen, .finishedWriting sio.swap_filen errflag]) := by
  by_cases herr : errflag = env.DISK_OK
  · refine ⟨(d.log (.closeForWriting sio.swap_filen true)).log
      (.finishedWriting sio.swap_filen errflag), ?_, ?_, ?_⟩
    · simp [writeCompleted, hsio, hmap, herr, diskOffsetLimit, diskOffset, SwapDir.log, hlimit,
        hpost]
    · intro _; simp [SwapDir.log]
    · intro h; exact absurd herr h
  · refine ⟨(d.log (.free sio.swap_filen)).log
      (.finishedWriting sio.swap_filen errflag), ?_, ?_, ?_⟩
    · simp [writeCompleted, hsio, hmap, herr, diskOffsetLimit, diskOffset, SwapDir.log, hlimit,
        hpost]
    · intro h; exact absurd h herr
    · intro _; simp [SwapDir.log]

theorem writeCompleted_calls_witness :
    ∃ d', writeCompleted exampleEnv exampleDir 0 118 (some { sio := some exampleReading }) = .ok d' ∧
      ((0 : Int) = exampleEnv.DISK_OK →
        d'.calls = exampleDir.calls ++
          [.closeForWriting exampleReading.swap_filen true,
            .finishedWriting exampleReading.swap_filen 0]) ∧
      ((0 : Int) ≠ exampleEnv.DISK_OK →
        d'.calls = exampleDir.calls ++
          [.free exampleReading.swap_filen, .finishedWriting exampleReading.swap_filen 0]) :=
  writeCompleted_calls exampleEnv exampleDir exampleMap 0 118 { sio := some exampleReading }
    exampleReading rfl rfl (by decide) (by decide)

/-- C5 fails as stated: a read completion with `errflag == DISK_OK` and the
reported length `-1` leaves `offset_` at 10, not at `10 + (-1)`. -/
theorem readCompleted_negative_length :
    exampleEnv.DISK_OK = 0 ∧ exampleReading.offset_ = 10 ∧
    Except.map (fun r => r.1.offset_)
      (readCompleted exampleEnv exampleDir 0 (-1) 0 (some { buf := 5, sio := some exampleReading }))
      = .ok 10 :=
  ⟨rfl, rfl, rfl⟩

theorem readCompleted_returns (env : Env) (d : SwapDir) (m : DirMap) (buf : Nat)
    (rlen errflag : Int) (request : ReadRequest) (sio : IoState) (callback : Nat)
    (hsio : request.sio = some sio) (hcb : sio.readCallback = some callback)
    (hmap : d.map = some m) (hlimit : 0 ≤ m.entryLimit)
    (hpost : sio.diskOffset + (if errflag = env.DISK_OK ∧ rlen > 0 then sio.offset_ + rlen
      else sio.offset_) ≤ HeaderSize + d.max_objsize * m.entryLimit) :
    readCompleted env d buf rlen errflag (some request) = .ok
      ({ sio with
          offset_ := if errflag = env.DISK_OK ∧ rlen > 0 then sio.offset_ + rlen else sio.offset_
          readCallback := none },
        if sio.readCallbackData.valid then
          d.log (.readCallback callback sio.readCallbackData.ptr request.buf rlen sio.swap_filen)
        else d) := by
  by_cases hadv : errflag = env.DISK_OK ∧ rlen > 0
  · rw [if_pos hadv] at hpost
    by_cases hv : sio.readCallbackData.valid = true <;>
      simp [readCompleted, hsio, hcb, hmap, hadv, diskOffsetLimit, diskOffset, hlimit, hpost, hv]
  · rw [if_neg hadv] at hpost
    by_cases hv : sio.readCallbackData.valid = true <;>
      simp [readCompleted, hsio, hcb, hmap, hadv, diskOffsetLimit, diskOffset, hlimit, hpost, hv]

theorem readCompleted_without_callback (env : Env) (d : SwapDir) (buf : Nat)
    (rlen errflag : Int) (request : ReadRequest) (sio : IoState)
    (hsio : request.sio = some sio) (hcb : sio.readCallback = none) :
    ∃ a, readCompleted env d buf rlen errflag (some request) = .error a := by
  have hcb' : (if errflag = env.DISK_OK ∧ rlen > 0 then
      { sio with offset_ := sio.offset_ + rlen } else sio).readCallback = none := by
    split <;> simp [hcb]
  unfold readCompleted
  simp only [hsio]
  cases hl : diskOffsetLimit d with
  | error a => exact ⟨a, rfl⟩
  | ok limit =>
    simp only []
    generalize (if errflag = env.DISK_OK ∧ rlen > 0 then
      { sio with offset_ := sio.offset_ + rlen } else sio) = s at hcb'
    by_cases hle : s.diskOffset + s.offset_ ≤ limit
    · exact ⟨.read_callback, by simp [hle, hcb']⟩
    · exact ⟨.read_diskOffsetLimit, by simp [hle]⟩

/-- C5, amended: a read completion that passes the assertions of `readCompleted`
returns, and `offset_` afterwards is `offset_ + rlen` when `errflag == DISK_OK` and
`rlen >= 0`, and is unchanged when `errflag == DISK_OK` and `rlen < 0` or when
`errflag != DISK_OK`. -/
theorem readCompleted_offset (env : Env) (d : SwapDir) (m : DirMap) (buf : Nat)
    (rlen errflag : Int) (request : ReadRequest) (sio : IoState) (callback : Nat)
    (hsio : request.sio = some sio) (hcb : sio.readCallback = some callback)
    (hmap : d.map = some m) (hlimit : 0 ≤ m.entryLimit)
    (hpost : sio.diskOffset + (if errflag = env.DISK_OK ∧ rlen > 0 then sio.offset_ + rlen
      else sio.offset_) ≤ HeaderSize + d.max_objsize * m.entryLimit) :
    ∃ sio' d', readCompleted env d buf rlen errflag (some request) = .ok (sio', d') ∧
      (errflag = env.DISK_OK → rlen ≥ 0 → sio'.offset_ = sio.offset_ + rlen) ∧
      (errflag = env.DISK_OK → rlen < 0 → sio'.offset_ = sio.offset_) ∧
      (errflag ≠ env.DISK_OK → sio'.offset_ = sio.offset_) := by
  refine ⟨_, _, readCompleted_returns env d m buf rlen errflag request sio callback hsio hcb hmap
    hlimit hpost, ?_, ?_, ?_⟩
  · intro h1 h2
    by_cases h3 : rlen > 0
    · simp [h1, h3]
    · have h4 : rlen = 0 := by omega
      simp [h4]
  · intro h1 h2
    have h3 : ¬ rlen > 0 := by omega
    simp [h3]
  · intro h1
    simp [h1]

theorem readCompleted_offset_witness :
    ∃ sio' d', readCompleted exampleEnv exampleDir 0 (-1) 0
        (some { buf := 5, sio := some exampleReading }) = .ok (sio', d') ∧
      ((0 : Int) = exampleEnv.DISK_OK → (-1 : Int) ≥ 0 →
        sio'.offset_ = exampleReading.offset_ + (-1)) ∧
      ((0 : Int) = exampleEnv.DISK_OK → (-1 : Int) < 0 → sio'.offset_ = exampleReading.offset_) ∧
      ((0 : Int) ≠ exampleEnv.DISK_OK → sio'.offset_ = exampleReading.offset_) :=
  readCompleted_offset exampleEnv exampleDir exampleMap 0 (-1) 0
    { buf := 5, sio := some exampleReading } exampleReading 77 rfl rfl rfl (by decide) (by decide)

/-- C6 fails as stated: a read completion on an I/O state with a pending read
callback whose callback data is no longer valid returns with the callback cleared
and without having invoked it (the log of calls stays empty). -/
theorem readCompleted_owner_gone :
    exampleReading.readCallback = some 77 ∧ exampleDir.calls = [] ∧
    Except.map (fun r => (r.1.readCallback, r.2.calls))
      (readCompleted exampleEnv exampleDir 0 5 0 (some { buf := 5, sio := some exampleReading }))
      = .ok (none, []) :=
  ⟨rfl, rfl, rfl⟩

/-- C6, amended: a read completion on an I/O state with a pending read callback that
passes the assertions of `readCompleted` returns with the read callback cleared. It
invokes the callback exactly once, with the callback data, the request buffer and
the reported length, when the callback data is still valid, and makes no call at
all when it is not. No later completion on the returned I/O state invokes
anything: it stops at `assert(callback)` or earlier. -/
theorem readCompleted_callback (env : Env) (d : SwapDir) (m : DirMap) (buf : Nat)
    (rlen errflag : Int) (request : ReadRequest) (sio : IoState) (callback : Nat)
    (hsio : request.sio = some sio) (hcb : sio.readCallback = some callback)
    (hmap : d.map = some m) (hlimit : 0 ≤ m.entryLimit)
    (hpost : sio.diskOffset + (if errflag = env.DISK_OK ∧ rlen > 0 then sio.offset_ + rlen
      else sio.offset_) ≤ HeaderSize + d.max_objsize * m.entryLimit) :
    ∃ sio' d', readCompleted env d buf rlen errflag (some request) = .ok (sio', d') ∧
      sio'.readCallback = none ∧
      (sio.readCallbackData.valid = true → d'.calls = d.calls ++
        [.readCallback callback sio.readCallbackData.ptr request.buf rlen sio.swap_filen]) ∧
      (sio.readCallbackData.valid = false → d'.calls = d.calls) ∧
      (∀ (d2 : SwapDir) (buf2 : Nat) (rlen2 errflag2 : Int) (request2 : ReadRequest),
        request2.sio = some sio' →
        ∃ a, readCompleted env d2 buf2 rlen2 errflag2 (some request2) = .error a) := by
  refine ⟨_, _, readCompleted_returns env d m buf rlen errflag request sio callback hsio hcb hmap
    hlimit hpost, rfl, ?_, ?_, ?_⟩
  · intro hv
    simp [hv, SwapDir.log]
  · intro hv
    simp [hv]
  · intro d2 buf2 rlen2 errflag2 request2 h2
    exact readCompleted_without_callback env d2 buf2 rlen2 errflag2 request2 _ h2 rfl

theorem readCompleted_callback_witness :
    ∃ sio' d', readCompleted exampleEnv exampleDir 0 5 0
        (some { buf := 5, sio := some exampleReadingValid }) = .ok (sio', d') ∧
      sio'.readCallback = none ∧
      (exampleReadingValid.readCallbackData.valid = true → d'.calls = exampleDir.calls ++
        [.readCallback 77 exampleReadingValid.readCallbackData.ptr 5 5
          exampleReadingValid.swap_filen]) ∧
      (exampleReadingValid.readCallbackData.valid = false → d'.calls = exampleDir.calls) ∧
      (∀ (d2 : SwapDir) (buf2 : Nat) (rlen2 errflag2 : Int) (request2 : ReadRequest),
        request2.sio = some sio' →
        ∃ a, readCompleted exampleEnv d2 buf2 rlen2 errflag2 (some request2) = .error a) :=
  readCompleted_callback exampleEnv exampleDir exampleMap 0 5 0
    { buf := 5, sio := some exampleReadingValid } exampleReadingValid 77 rfl rfl rfl (by decide)
    (by decide)

/-- C7: `canStore` answers false when the base `::SwapDir::canStore` rejects the
entry for `sizeof(DbCellHeader) + diskSpaceNeeded`, when there is no file or the
file cannot be written, when there is no map, and when the I/O strategy sheds
load, and then leaves `load` as the base left it; it answers true exactly when
none of these holds (and the I/O strategy exists), and then sets `load` to
`io->load()`. -/
theorem canStore_answer (env : Env) (d : SwapDir) (e : StoreEntry) (diskSpaceNeeded load : Int) :
    ((env.baseCanStore d e (sizeofDbCellHeader + diskSpaceNeeded) load).1 = false ∨
        d.theFile = none ∨ (∃ f, d.theFile = some f ∧ f.canWrite = false) ∨ d.map.isNone = true ∨
        (∃ io, d.io = some io ∧ io.shedLoad = true) →
       canStore env d e diskSpaceNeeded load =
        .ok (false, (env.baseCanStore d e (sizeofDbCellHeader + diskSpaceNeeded) load).2)) ∧
    (∀ l : Int, canStore env d e diskSpaceNeeded load = .ok (true, l) ↔
      (env.baseCanStore d e (sizeofDbCellHeader + diskSpaceNeeded) load).1 = true ∧
      (∃ f, d.theFile = some f ∧ f.canWrite = true) ∧ d.map.isSome = true ∧
      ∃ io, d.io = some io ∧ io.shedLoad = false ∧ l = io.load) ∧
    (∀ io, d.io = some io → ∃ b l, canStore env d e diskSpaceNeeded load = .ok (b, l)) := by
  unfold canStore
  generalize env.baseCanStore d e (sizeofDbCellHeader + diskSpaceNeeded) load = base
  generalize d.theFile = file
  generalize d.map = map
  generalize d.io = strategy
  obtain ⟨b, l0⟩ := base
  rcases file with _ | ⟨ferr, _ | _⟩ <;> rcases map with _ | m <;>
    rcases strategy with _ | ⟨_ | _, ioload⟩ <;> cases b <;> simp
  exact fun l => eq_comm

theorem canStore_answer_witness :
    canStore exampleEnv exampleDir exampleEntry 120 0 = .ok (true, 10) ∧
    canStore exampleEnv { exampleDir with theFile := none } exampleEntry 120 7 = .ok (false, 7) :=
  ⟨((canStore_answer exampleEnv exampleDir exampleEntry 120 0).2.1 10).mpr
      ⟨rfl, ⟨_, rfl, rfl⟩, rfl, _, rfl, rfl, rfl⟩,
    (canStore_answer exampleEnv { exampleDir with theFile := none } exampleEntry 120 7).1
      (Or.inr (Or.inl rfl))⟩

theorem testBit_EBIT_SET (flag bit i : Nat) :
    (EBIT_SET flag bit).testBit i = (decide (i < 16) && (flag.testBit i || decide (bit = i))) := by
  unfold EBIT_SET
  rw [Nat.testBit_mod_two_pow, Nat.testBit_or, Nat.one_shiftLeft, Nat.testBit_two_pow]

theorem testBit_EBIT_CLR (flag bit i : Nat) (hbit : bit < 64) :
    (EBIT_CLR flag bit).testBit i =
      (decide (i < 16) && (flag.testBit i && !decide (bit = i))) := by
  have hpow : 2 ^ bit < 2 ^ 64 := Nat.pow_lt_pow_right (by decide) hbit
  have hmod : 2 ^ bit % 2 ^ 64 = 2 ^ bit := Nat.mod_eq_of_lt hpow
  have hsub : 2 ^ 64 - 1 - 2 ^ bit = 2 ^ 64 - (2 ^ bit + 1) := by omega
  unfold EBIT_CLR
  rw [Nat.one_shiftLeft, hmod, hsub, Nat.testBit_mod_two_pow, Nat.testBit_and,
    Nat.testBit_two_pow_sub_succ hpow, Nat.testBit_two_pow]
  by_cases h16 : i < 16
  · have h64 : i < 64 := by omega
    simp [h16, h64]
  · simp [h16]

/-- C8: `get(key)` returns no entry exactly when there is no map or
`openForReading(key)` finds no slot. Otherwise it returns an entry whose
`swap_filen` is the `fileno` found, whose `swap_file_sz`, `lastref`, `timestamp`,
`expires`, `lastmod` and `refcount` are those of the slot's basics, and whose flags
are the basics' flags with `ENTRY_CACHABLE` and `ENTRY_VALIDATED` set and
`RELEASE_REQUEST` and `KEY_PRIVATE` cleared (the four being distinct bits of the
16-bit flag word). `get` calls `openForReading` at most once and never
`closeForReading`. -/
theorem get_entry (env : Env) (d : SwapDir) (key : cache_key) :
    ((get env d key).1 = none ↔ d.map = none ∨ env.openForReading d key = none) ∧
    (∀ (m : DirMap) (fileno : Int), d.map = some m → env.openForReading d key = some fileno →
      ∃ e, (get env d key).1 = some e ∧ e.swap_filen = fileno ∧
        e.swap_file_sz = (m.slots fileno).basics.swap_file_sz ∧
        e.lastref = (m.slots fileno).basics.lastref ∧
        e.timestamp = (m.slots fileno).basics.timestamp ∧
        e.expires = (m.slots fileno).basics.expires ∧
        e.lastmod = (m.slots fileno).basics.lastmod ∧
        e.refcount = (m.slots fileno).basics.refcount ∧
        (env.ENTRY_CACHABLE < 16 → env.ENTRY_VALIDATED < 16 → env.RELEASE_REQUEST < 16 →
          env.KEY_PRIVATE < 16 → env.ENTRY_CACHABLE ≠ env.RELEASE_REQUEST →
          env.ENTRY_CACHABLE ≠ env.KEY_PRIVATE → env.ENTRY_VALIDATED ≠ env.RELEASE_REQUEST →
          env.ENTRY_VALIDATED ≠ env.KEY_PRIVATE → (m.slots fileno).basics.flags < 2 ^ 16 →
          ∀ i : Nat, e.flags.testBit i =
            if i = env.ENTRY_CACHABLE ∨ i = env.ENTRY_VALIDATED then true
            else if i = env.RELEASE_REQUEST ∨ i = env.KEY_PRIVATE then false
            else (m.slots fileno).basics.flags.testBit i)) ∧
    ((get env d key).2.calls = d.calls ++
        ((match d.map with
          | none => []
          | some _ => [.openForReading key (env.openForReading d key)]) ++
        (match (get env d key).1 with
          | none => []
          | some e => .hashInsert key :: (if d.repl then [.replAdd e] else []))) ∧
      ∀ fileno, Call.closeForReading fileno ∉ newCalls d (get env d key).2) := by
  have hcalls : (get env d key).2.calls = d.calls ++
        ((match d.map with
          | none => []
          | some _ => [.openForReading key (env.openForReading d key)]) ++
        (match (get env d key).1 with
          | none => []
          | some e => .hashInsert key :: (if d.repl then [.replAdd e] else []))) := by
    unfold get
    cases hm : d.map with
    | none => simp
    | some m =>
      cases ho : env.openForReading d key with
      | none => simp [SwapDir.log]
      | some fileno =>
        by_cases hr : d.repl = true <;> simp [trackReferences, SwapDir.log, hr]
  refine ⟨?_, ?_, ?_⟩
  · unfold get
    cases hm : d.map with
    | none => simp
    | some m =>
      cases ho : env.openForReading d key with
      | none => simp
      | some fileno => simp
  · intro m fileno hm ho
    refine ⟨_, by simp [get, hm, ho]; rfl, rfl, rfl, rfl, rfl, rfl, rfl, rfl, ?_⟩
    intro hC hV hR hP hCR hCP hVR hVP hflags i
    simp only [testBit_EBIT_SET, testBit_EBIT_CLR _ _ _ (show env.RELEASE_REQUEST < 64 by omega),
      testBit_EBIT_CLR _ _ _ (show env.KEY_PRIVATE < 64 by omega)]
    have hRC := hCR.symm
    have hPC := hCP.symm
    have hRV := hVR.symm
    have hPV := hVP.symm
    by_cases hiV : i = env.ENTRY_VALIDATED
    · subst hiV; simp [hV]
    · by_cases hiC : i = env.ENTRY_CACHABLE
      · subst hiC
        simp [hC, hRC, hPC]
      · by_cases hiR : i = env.RELEASE_REQUEST
        · subst hiR; simp [hRC, hRV, hVR]
        · by_cases hiP : i = env.KEY_PRIVATE
          · subst hiP; simp [hPC, hPV, hVP]
          · have h1 : ¬ env.ENTRY_VALIDATED = i := fun h => hiV h.symm
            have h2 : ¬ env.ENTRY_CACHABLE = i := fun h => hiC h.symm
            have h3 : ¬ env.RELEASE_REQUEST = i := fun h => hiR h.symm
            have h4 : ¬ env.KEY_PRIVATE = i := fun h => hiP h.symm
            by_cases h16 : i < 16
            · simp [h16, hiV, hiC, hiR, hiP, h1, h2, h3, h4]
            · have : (m.slots fileno).basics.flags < 2 ^ i :=
                lt_of_lt_of_le hflags (Nat.pow_le_pow_right (by decide) (by omega))
              simp [h16, hiV, hiC, hiR, hiP, Nat.testBit_lt_two_pow this]
  · refine ⟨hcalls, ?_⟩
    intro fileno
    rw [newCalls, hcalls, List.drop_left]
    cases d.map <;> cases (get env d key).1 <;> by_cases hr : d.repl = true <;> simp [hr]

theorem get_entry_witness :
    ∃ e, (get exampleEnv exampleDir 2).1 = some e ∧ e.swap_filen = 2 ∧ e.swap_file_sz = 120 ∧
      ∀ i : Nat, e.flags.testBit i =
        if i = 5 ∨ i = 10 then true else if i = 3 ∨ i = 7 then false
        else (136 : Nat).testBit i := by
  obtain ⟨e, h1, h2, h3, _, _, _, _, _, h9⟩ :=
    (get_entry exampleEnv exampleDir 2).2.1 exampleMap 2 rfl rfl
  exact ⟨e, h1, h2, h3, h9 (by decide) (by decide) (by decide) (by decide) (by decide)
    (by decide) (by decide) (by decide) (by decide)⟩

/-- C9: for an entry with `swap_dirn == index`, `swap_filen >= 0` and
`swap_status != SWAPOUT_NONE` (and a map in place), `unlink` calls `map->free` on the
entry's original `swap_filen` (after `repl->Remove` when a removal policy is
installed, and before the `abortIo` of `disconnect`), and returns the entry changed
in nothing but `swap_dirn == -1`, `swap_filen == -1` and
`swap_status == SWAPOUT_NONE`. -/
theorem unlink_detaches (d : SwapDir) (m : DirMap) (e : StoreEntry) (hmap : d.map = some m)
    (hdirn : e.swap_dirn = d.index) (hfilen : e.swap_filen ≥ 0)
    (hstatus : e.swap_status ≠ .SWAPOUT_NONE) :
    ∃ e' d', unlink d e = .ok (e', d') ∧
      d'.calls = d.calls ++ (if d.repl then [.replRemove e] else []) ++
        [.free e.swap_filen, .abortIo e.swap_filen] ∧
      e' = { e with swap_dirn := -1, swap_filen := -1, swap_status := .SWAPOUT_NONE } ∧
      e'.swap_dirn = -1 ∧ e'.swap_filen = -1 ∧ e'.swap_status = .SWAPOUT_NONE := by
  have hret : unlink d e = .ok
      ({ e with swap_dirn := -1, swap_filen := -1, swap_status := .SWAPOUT_NONE },
        { d with calls := d.calls ++ (if d.repl then [.replRemove e] else []) ++
          [.free e.swap_filen, .abortIo e.swap_filen] }) := by
    by_cases hr : d.repl = true <;>
      simp [unlink, ignoreReferences, disconnect, SwapDir.log, hr, hmap, hdirn, hfilen, hstatus]
  exact ⟨_, _, hret, rfl, rfl, rfl, rfl, rfl⟩

theorem unlink_detaches_witness :
    ∃ e' d', unlink exampleDir exampleStored = .ok (e', d') ∧
      d'.calls = exampleDir.calls ++ (if exampleDir.repl then [.replRemove exampleStored] else []) ++
        [.free exampleStored.swap_filen, .abortIo exampleStored.swap_filen] ∧
      e' = { exampleStored with
        swap_dirn := -1, swap_filen := -1, swap_status := .SWAPOUT_NONE } ∧
      e'.swap_dirn = -1 ∧ e'.swap_filen = -1 ∧ e'.swap_status = .SWAPOUT_NONE :=
  unlink_detaches exampleDir exampleMap exampleStored rfl (by decide) (by decide) (by decide)

theorem full_calls (env : Env) (d : SwapDir) :
    (full env d).2.calls = d.calls ++
      (match d.map with
        | none => []
        | some _ => [.full (full env d).1]) ∧
    (full env d).2.map = d.map := by
  unfold full
  cases hm : d.map <;> simp [SwapDir.log, hm]

theorem maintainLoop_calls (env : Env) (maxFreed : Nat) :
    ∀ (n : Nat) (d : SwapDir) (freed : Nat), maxFreed - freed = n →
      ∃ (es : List StoreEntry) (tail : List Call),
        (maintainLoop env maxFreed d freed).1.calls = d.calls ++ (purgeRounds es ++ tail) ∧
        es.length + (tail.filter Call.isWalkerNext).length ≤ n ∧
        (tail = [] ∨ tail = [.full false] ∨ tail = [.full true, .walkerNext none]) := by
  intro n
  induction n with
  | zero =>
    intro d freed hn
    refine ⟨[], [], ?_, by simp, Or.inl rfl⟩
    rw [maintainLoop]
    have : ¬ freed < maxFreed := by omega
    simp [this, purgeRounds]
  | succ n ih =>
    intro d freed hn
    have hlt : freed < maxFreed := by omega
    rw [maintainLoop]
    simp only [hlt, if_true]
    cases hm : d.map with
    | none =>
      refine ⟨[], [], ?_, by simp, Or.inl rfl⟩
      simp [full, hm, purgeRounds]
    | some m =>
      cases hf : env.mapFull d with
      | false =>
        refine ⟨[], [.full false], ?_, by simp [Call.isWalkerNext], Or.inr (Or.inl rfl)⟩
        simp [full, hm, hf, purgeRounds, SwapDir.log]
      | true =>
        cases hw : env.walkerNext (d.log (.full true)) with
        | none =>
          refine ⟨[], [.full true, .walkerNext none], ?_, by simp [Call.isWalkerNext],
            Or.inr (Or.inr rfl)⟩
          simp only [full, hm, hf, hw, if_true]
          simp [purgeRounds, SwapDir.log]
        | some e =>
          obtain ⟨es, tail, h1, h2, h3⟩ :=
            ih (((d.log (.full true)).log (.walkerNext (some e))).log (.release e)) (freed + 1)
              (by omega)
          refine ⟨e :: es, tail, ?_, by simp; omega, h3⟩
          simp only [full, hm, hf, hw, if_true]
          rw [h1]
          simp [SwapDir.log, purgeRounds]

theorem releasesGuarded_cons (c : Call) (l : List Call) (hc : c.isRelease = false)
    (hl : ReleasesGuarded l) : ReleasesGuarded (c :: l) := by
  intro pre e post h
  cases pre with
  | nil =>
    simp only [List.nil_append, List.cons.injEq] at h
    rw [h.1] at hc
    simp [Call.isRelease] at hc
  | cons x pre2 =>
    simp only [List.cons_append, List.cons.injEq] at h
    obtain ⟨pre1, hp⟩ := hl pre2 e post h.2
    exact ⟨x :: pre1, by simp [hp]⟩

theorem releasesGuarded_of_no_release (l : List Call) (hl : ∀ c ∈ l, c.isRelease = false) :
    ReleasesGuarded l := by
  intro pre e post h
  have := hl (.release e) (by simp [h])
  simp [Call.isRelease] at this

theorem releasesGuarded_rounds (es : List StoreEntry) (tail : List Call)
    (ht : ∀ c ∈ tail, c.isRelease = false) : ReleasesGuarded (purgeRounds es ++ tail) := by
  induction es with
  | nil => simpa [purgeRounds] using releasesGuarded_of_no_release tail ht
  | cons e es ih =>
    intro pre e2 post h
    simp only [purgeRounds, List.cons_append] at h
    rcases pre with _ | ⟨x, _ | ⟨y, _ | ⟨z, pre2⟩⟩⟩
    · simp at h
    · simp at h
    · simp only [List.cons_append, List.nil_append, List.cons.injEq] at h
      obtain ⟨hx, hy, hz, _⟩ := h
      injection hz with hz
      exact ⟨[], by simp [← hx, ← hy, hz]⟩
    · simp only [List.cons_append, List.cons.injEq] at h
      obtain ⟨hx, hy, hz, hrest⟩ := h
      obtain ⟨pre1, hp⟩ := ih pre2 e2 post hrest
      exact ⟨x :: y :: z :: pre1, by simp [hp]⟩

theorem purgeRounds_counts (es : List StoreEntry) :
    ((purgeRounds es).filter Call.isRelease).length = es.length ∧
    ((purgeRounds es).filter Call.isWalkerNext).length = es.length ∧
    ((purgeRounds es).filter Call.isPurgeInit).length = 0 ∧
    (∀ n, Call.purgeInit n ∉ purgeRounds es) := by
  induction es with
  | nil => simp [purgeRounds]
  | cons e es ih =>
    obtain ⟨h1, h2, h3, h4⟩ := ih
    simp [purgeRounds, Call.isRelease, Call.isWalkerNext, Call.isPurgeInit, h1, h2, h3, h4]

theorem SwapDir.log_calls (d : SwapDir) (c : Call) : (d.log c).calls = d.calls ++ [c] := rfl

theorem full_adds (env : Env) (d : SwapDir) :
    ∃ last, (full env d).2.calls = d.calls ++ last ∧ (last = [] ∨ ∃ b, last = [.full b]) := by
  unfold full
  cases hm : d.map with
  | none => exact ⟨[], by simp, Or.inl rfl⟩
  | some m => exact ⟨[.full (env.mapFull d)], by simp [SwapDir.log], Or.inr ⟨_, rfl⟩⟩

/-- C10: one call of `maintain()` releases at most 1000 entries and asks the walker
for at most 1000, starts at most one purge walk and starts it with a scan limit of
10000, releases an entry only right after `full()` answered true and the walker
handed that entry out, and makes no call but `full()` (so releases nothing) when a
rebuild is in progress, when the directory is not full, or when there is no map or
no removal policy. -/
theorem maintain_bounds (env : Env) (d : SwapDir) (store_dirs_rebuilding : Int) :
    ∃ added, (maintain env d store_dirs_rebuilding).calls = d.calls ++ added ∧
      (added.filter Call.isRelease).length ≤ 1000 ∧
      (added.filter Call.isWalkerNext).length ≤ 1000 ∧
      (added.filter Call.isPurgeInit).length ≤ 1 ∧
      (∀ n, Call.purgeInit n ∈ added → n = 10000) ∧
      (∀ (pre : List Call) (e : StoreEntry) (post : List Call),
        added = pre ++ Call.release e :: post →
        ∃ pre', pre = pre' ++ [Call.full true, Call.walkerNext (some e)]) ∧
      (store_dirs_rebuilding ≠ 0 ∨ (full env d).1 = false ∨ d.map = none ∨ d.repl = false →
        (∀ c ∈ added, ∃ answer, c = Call.full answer) ∧ ∀ e, Call.release e ∉ added) := by
  by_cases hrepl : d.repl = true
  swap
  · refine ⟨[], by simp [maintain, hrepl], by simp, by simp, by simp, by simp, ?_, by simp⟩
    exact releasesGuarded_of_no_release [] (by simp)
  cases hm : d.map with
  | none =>
    refine ⟨[], by simp [maintain, hrepl, hm], by simp, by simp, by simp, by simp, ?_, by simp⟩
    exact releasesGuarded_of_no_release [] (by simp)
  | some m =>
    cases hf : env.mapFull d with
    | false =>
      refine ⟨[.full false], by simp [maintain, hrepl, hm, full, hf, SwapDir.log],
        by simp [Call.isRelease], by simp [Call.isWalkerNext], by simp [Call.isPurgeInit],
        by simp, ?_, by simp⟩
      exact releasesGuarded_of_no_release _ (by simp [Call.isRelease])
    | true =>
      by_cases hr : store_dirs_rebuilding = 0
      swap
      · refine ⟨[.full true], by simp [maintain, hrepl, hm, full, hf, SwapDir.log, hr],
          by simp [Call.isRelease], by simp [Call.isWalkerNext], by simp [Call.isPurgeInit],
          by simp, ?_, by simp⟩
        exact releasesGuarded_of_no_release _ (by simp [Call.isRelease])
      obtain ⟨es, tail, h1, h2, h3⟩ := maintainLoop_calls env 1000 1000
        ((d.log (.full true)).log (.purgeInit 10000)) 0 rfl
      obtain ⟨last, h4, h5⟩ := full_adds env
        ((maintainLoop env 1000 ((d.log (.full true)).log (.purgeInit 10000)) 0).1.log .walkerDone)
      obtain ⟨c1, c2, c3, c4⟩ := purgeRounds_counts es
      have hmain : (maintain env d store_dirs_rebuilding).calls = d.calls ++
          (.full true :: .purgeInit 10000 :: (purgeRounds es ++ (tail ++ .walkerDone :: last))) := by
        have hfd : full env d = (true, d.log (.full true)) := by simp [full, hm, hf]
        have hmt : maintain env d store_dirs_rebuilding = (full env
            ((maintainLoop env 1000 ((d.log (.full true)).log (.purgeInit 10000)) 0).1.log
              .walkerDone)).2 := by
          simp [maintain, hrepl, hm, hfd, hr]
        rw [hmt, h4]
        simp only [SwapDir.log_calls, h1]
        simp
      have hfd : (full env d).1 = true := by simp [full, hm, hf]
      have htail : ∀ c ∈ tail ++ .walkerDone :: last,
          c.isRelease = false ∧ c.isPurgeInit = false := by
        rcases h3 with rfl | rfl | rfl <;> rcases h5 with rfl | ⟨b, rfl⟩ <;>
          first
            | decide
            | (cases b <;> decide)
      have hlastw : ((.walkerDone :: last : List Call).filter Call.isWalkerNext).length = 0 := by
        rcases h5 with rfl | ⟨b, rfl⟩ <;> simp [Call.isWalkerNext]
      refine ⟨_, hmain, ?_, ?_, ?_, ?_, ?_, ?_⟩
      · have hT : (tail ++ .walkerDone :: last).filter Call.isRelease = [] :=
          List.filter_eq_nil_iff.mpr (fun c hc => by simp [(htail c hc).1])
        simp only [List.filter_cons, List.filter_append, Call.isRelease, hT, List.length_append,
          c1]
        simp
        omega
      · have hw : (Call.full true :: Call.purgeInit 10000 ::
            (purgeRounds es ++ (tail ++ .walkerDone :: last))).filter Call.isWalkerNext =
            (purgeRounds es).filter Call.isWalkerNext ++ (tail.filter Call.isWalkerNext ++
              (Call.walkerDone :: last).filter Call.isWalkerNext) := by
          simp [List.filter_cons, Call.isWalkerNext]
        rw [hw, List.length_append, List.length_append, c2, hlastw]
        omega
      · have hT : (tail ++ .walkerDone :: last).filter Call.isPurgeInit = [] :=
          List.filter_eq_nil_iff.mpr (fun c hc => by simp [(htail c hc).2])
        have hp : (Call.full true :: Call.purgeInit 10000 ::
            (purgeRounds es ++ (tail ++ .walkerDone :: last))).filter Call.isPurgeInit =
            Call.purgeInit 10000 :: ((purgeRounds es).filter Call.isPurgeInit ++
              (tail ++ .walkerDone :: last).filter Call.isPurgeInit) := by
          simp [List.filter_cons, Call.isPurgeInit]
        rw [hp, hT, List.length_cons, List.length_append, c3]
        simp
      · intro n hn
        simp only [List.mem_cons, List.mem_append] at hn
        rcases hn with hn | hn | hn | hn
        · cases hn
        · injection hn
        · exact absurd hn (c4 n)
        · have := (htail _ (by simp only [List.mem_append, List.mem_cons]; exact hn)).2
          simp [Call.isPurgeInit] at this
      · exact releasesGuarded_cons _ _ rfl (releasesGuarded_cons _ _ rfl
          (releasesGuarded_rounds es _ (fun c hc => (htail c hc).1)))
      · intro h
        rcases h with h | h | h | h
        · exact absurd hr h
        · rw [hfd] at h; exact absurd h (by decide)
        · simp at h
        · rw [hrepl] at h; exact absurd h (by decide)

theorem maintain_bounds_witness :
    (∃ added, (maintain exampleEnv exampleDirRepl 1).calls = exampleDirRepl.calls ++ added ∧
      ∀ e, Call.release e ∉ added) ∧
    (maintain exampleEnv exampleDirRepl 0).calls =
      [.full true, .purgeInit 10000,
        .full true, .walkerNext (some exampleStored), .release exampleStored,
        .full true, .walkerNext (some exampleStored), .release exampleStored,
        .full false, .walkerDone, .full false] := by
  refine ⟨?_, ?_⟩
  · obtain ⟨added, h1, _, _, _, _, _, h7⟩ := maintain_bounds exampleEnv exampleDirRepl 1
    exact ⟨added, h1, (h7 (Or.inl (by decide))).2⟩
  · simp [maintain, exampleDirRepl, exampleDir, full, exampleEnv, SwapDir.log, Call.isRelease]
    rw [maintainLoop]
    simp [full, SwapDir.log, Call.isRelease]
    rw [maintainLoop]
    simp [full, SwapDir.log, Call.isRelease]
    rw [maintainLoop]
    simp [full, SwapDir.log, Call.isRelease]

/-- C11: `openStoreIO` returns no `IoState` when the file is missing or in error,
when the entry's `swap_filen` is negative, and when `peekAtReader(swap_filen)`
yields no slot. When it returns an `IoState`, its `payloadEnd` is
`sizeof(DbCellHeader)` plus the `payloadSize` of the stored cell header, its
`swap_filen` is the entry's and its `diskOffset` is `diskOffset(swap_filen)`. -/
theorem openStoreIO_result (env : Env) (d : SwapDir) (e : StoreEntry) :
    (d.theFile = none ∨ (∃ f, d.theFile = some f ∧ f.error = true) →
       openStoreIO env d e = .ok none) ∧
    (e.swap_filen < 0 → openStoreIO env d e = .ok none) ∧
    (∀ m, d.map = some m → env.peekAtReader d e.swap_filen = false →
       openStoreIO env d e = .ok none) ∧
    (∀ sio, openStoreIO env d e = .ok (some sio) →
      ∃ f m, d.theFile = some f ∧ f.error = false ∧ 0 ≤ e.swap_filen ∧ d.map = some m ∧
        env.peekAtReader d e.swap_filen = true ∧
        sio.payloadEnd = sizeofDbCellHeader + (m.extras e.swap_filen).payloadSize ∧
        sio.swap_filen = e.swap_filen ∧
        diskOffset d e.swap_filen = .ok sio.diskOffset ∧
        sio.swap_dirn = d.index) := by
  refine ⟨?_, ?_, ?_, ?_⟩
  · rintro (h | ⟨f, hf, he⟩)
    · simp [ openStoreIO, h]
    · simp [ openStoreIO, hf, he]
  · intro h
    unfold openStoreIO
    cases hf : d.theFile with
    | none => rfl
    | some f => cases he : f.error <;> simp [h]
  · intro m hm hp
    unfold openStoreIO
    cases hf : d.theFile with
    | none => rfl
    | some f =>
      cases he : f.error
      · by_cases hn : e.swap_filen < 0 <;> simp [hn, hm, hp]
      · simp [he]
  · intro sio h
    unfold openStoreIO at h
    simp only [] at h
    repeat' split at h
    all_goals try (simp at h; done)
    rename_i _ f hf he hneg _ m hm hpeek _ _ _ _ off hoff _ limit hlimit hle
    simp only [Except.ok.injEq, Option.some.injEq] at h
    subst h
    refine ⟨f, m, hf, by simpa using he, by omega, hm, by simpa using hpeek, rfl, rfl, ?_, rfl⟩
    simpa using hoff

theorem openStoreIO_result_witness :
    ∃ sio, openStoreIO exampleEnv exampleDir exampleStored = .ok (some sio) ∧
      ∃ f m, exampleDir.theFile = some f ∧ f.error = false ∧ 0 ≤ exampleStored.swap_filen ∧
        exampleDir.map = some m ∧
        exampleEnv.peekAtReader exampleDir exampleStored.swap_filen = true ∧
        sio.payloadEnd = sizeofDbCellHeader + (m.extras exampleStored.swap_filen).payloadSize ∧
        sio.swap_filen = exampleStored.swap_filen ∧
        diskOffset exampleDir exampleStored.swap_filen = .ok sio.diskOffset ∧
        sio.swap_dirn = exampleDir.index :=
  ⟨_, rfl, (openStoreIO_result exampleEnv exampleDir exampleStored).2.2.2 _ rfl⟩

/-- C12 fails on the code for `parseSize`. With `max_size` unsigned the test
`max_size < 0` never holds, so no size is rejected; the negative size `-1` is stored
as `2 ^ 64 - 1024`. Whatever the type of `max_size`, the shift is done in a 32-bit
`int`: the negative size `-2097153` wraps to a positive value and is accepted, and
with a signed `max_size` the positive size `2097152` wraps to a negative value and
is rejected. Only for sizes in `[-2 ^ 21, 2 ^ 21)` and a signed `max_size` does
`parseSize` fail exactly on the negative sizes and store the size times 1024.
`validateOptions` fails if and only if `max_objsize <= 0`. -/
theorem parseSize_misses_negative_sizes :
    (∀ (d : SwapDir) (i : Int), ∃ d', parseSize toUInt64 d i = .ok d') ∧
    (∃ d', parseSize toUInt64 exampleDir (-1) = .ok d' ∧ d'.max_size = 2 ^ 64 - 1024) ∧
    (∃ d', parseSize id exampleDir (-2097153) = .ok d' ∧ d'.max_size = 2147482624) ∧
    parseSize id exampleDir 2097152 = .error .negativeSize ∧
    (∀ (d : SwapDir) (i : Int), -2 ^ 21 ≤ i → i < 2 ^ 21 →
      (parseSize id d i = .error .negativeSize ↔ i < 0) ∧
      (∀ d', parseSize id d i = .ok d' → d'.max_size = i * 1024)) ∧
    (∀ d : SwapDir, validateOptions d = .error .positiveMaxObjsizeRequired ↔
      d.max_objsize ≤ 0) := by
  refine ⟨?_, ⟨_, rfl, by decide⟩, ⟨_, rfl, by decide⟩, rfl, ?_, ?_⟩
  · intro d i
    have h : ¬ toUInt64 (toInt32 (i * 1024)) < 0 := by
      unfold toUInt64
      have := Int.emod_nonneg (toInt32 (i * 1024)) (show (2 : Int) ^ 64 ≠ 0 by norm_num)
      omega
    exact ⟨{ d with max_size := toUInt64 (toInt32 (i * 2 ^ 10)) }, by simp [parseSize, h]⟩
  · intro d i hlo hhi
    have hwrap : toInt32 (i * 1024) = i * 1024 := by
      unfold toInt32
      have h1 : (i * 1024 + 2 ^ 31) % 2 ^ 32 = i * 1024 + 2 ^ 31 :=
        Int.emod_eq_of_lt (by omega) (by omega)
      rw [h1]
      norm_num
    refine ⟨?_, ?_⟩
    · by_cases hneg : i < 0
      · have : i * 1024 < 0 := by omega
        simp [parseSize, hwrap, this, hneg]
      · have : ¬ i * 1024 < 0 := by omega
        simp [parseSize, hwrap, this, hneg]
    · intro d' h
      by_cases hneg : i * 1024 < 0
      · simp [parseSize, hwrap, hneg] at h
      · simp [parseSize, hwrap, hneg] at h
        rw [← h]
  · intro d
    unfold validateOptions
    by_cases h : d.max_objsize ≤ 0 <;> simp [h]

/-- C14: `addEntry` returns true exactly when `openForWriting(from.key)` yields the
slot at the requested `fileno`; only then are the slot and its stored cell header
overwritten from the entry and the header given, every other slot staying as it
was. Whenever `openForWriting` yields a slot, the one call that follows it is
`closeForWriting(location, false)`. When `openForWriting` yields nothing,
`addEntry` returns false and makes no further call and no change. -/
theorem addEntry_result (env : Env) (d : SwapDir) (m : DirMap) (fileno : Int)
    (header : DbCellHeader) (src : StoreEntry) (hmap : d.map = some m) :
    (env.openForWriting d src.key = none →
      addEntry env d fileno header src = .ok (false, d.log (.openForWriting src.key none))) ∧
    (∀ location, env.openForWriting d src.key = some location →
      ∃ d', addEntry env d fileno header src = .ok (decide (fileno = location), d') ∧
        d'.calls = d.calls ++
          [.openForWriting src.key (some location), .closeForWriting location false] ∧
        (fileno = location → ∃ m', d'.map = some m' ∧
          m'.slots fileno = (m.slots fileno).set src ∧ m'.extras fileno = header ∧
          m'.entryLimit = m.entryLimit ∧
          ∀ i, i ≠ fileno → m'.slots i = m.slots i ∧ m'.extras i = m.extras i) ∧
        (fileno ≠ location → d'.map = some m)) ∧
    (∀ b d', addEntry env d fileno header src = .ok (b, d') →
      (b = true ↔ env.openForWriting d src.key = some fileno)) := by
  refine ⟨?_, ?_, ?_⟩
  · intro h
    simp [addEntry, hmap, h]
  · intro location h
    by_cases hloc : fileno = location
    · subst hloc
      refine ⟨_, by simp [addEntry, hmap, h]; rfl, by simp [SwapDir.log], ?_, ?_⟩
      · intro _
        refine ⟨_, rfl, by simp, by simp, rfl, ?_⟩
        intro i hi
        simp [Function.update, hi]
      · intro hne
        exact absurd rfl hne
    · refine ⟨_, by simp [addEntry, hmap, h, hloc]; rfl, by simp [SwapDir.log], ?_, ?_⟩
      · intro heq
        exact absurd heq hloc
      · intro _
        simp [SwapDir.log, hmap]
  · intro b d' h
    unfold addEntry at h
    simp only [hmap] at h
    cases ho : env.openForWriting d src.key with
    | none =>
      simp [ho] at h
      simp [← h.1]
    | some location =>
      simp only [ho, Except.ok.injEq, Prod.mk.injEq] at h
      rw [← h.1]
      simp
      exact eq_comm

theorem addEntry_result_witness :
    (∃ d', addEntry exampleEnv exampleDir 1 { payloadSize := 120 } exampleEntry = .ok (true, d')) ∧
    (∃ d', addEntry exampleEnv exampleDir 2 { payloadSize := 120 } exampleEntry =
      .ok (false, d') ∧ d'.map = some exampleMap) := by
  refine ⟨?_, ?_⟩
  · obtain ⟨d', h, _⟩ := (addEntry_result exampleEnv exampleDir exampleMap 1
      { payloadSize := 120 } exampleEntry rfl).2.1 1 rfl
    exact ⟨d', h⟩
  · obtain ⟨d', h, _, _, h4⟩ := (addEntry_result exampleEnv exampleDir exampleMap 2
      { payloadSize := 120 } exampleEntry rfl).2.1 1 rfl
    exact ⟨d', h, h4 (by decide)⟩

theorem entryLimitAllowed_eq (d : SwapDir) (maximumSize maxObjectSize entryLimitHigh : Int) :
    entryLimitAllowed d maximumSize maxObjectSize entryLimitHigh =
      if maxObjectSize = 0 then none
      else some (min (max (match d.map with
          | some m => m.entryLimit
          | none => 0) (Int.tdiv (maximumSize - HeaderSize) maxObjectSize)) entryLimitHigh) := by
  unfold entryLimitAllowed
  by_cases h : maxObjectSize = 0 <;> simp [h]

theorem entryLimitAllowed_le_high (d : SwapDir) (maximumSize maxObjectSize entryLimitHigh : Int)
    (allowed : Int)
    (h : entryLimitAllowed d maximumSize maxObjectSize entryLimitHigh = some allowed) :
    allowed ≤ entryLimitHigh := by
  rw [entryLimitAllowed_eq] at h
  by_cases h0 : maxObjectSize = 0
  · simp [h0] at h
  · simp only [h0, if_false, Option.some.injEq] at h
    rw [← h]
    exact min_le_right _ _

theorem RockSwapDirRr.loop_le_high (entryLimitHigh : Int) (dirs : List (Option ConfiguredDir)) :
    ∀ (owners created : List DirMap), (∀ m ∈ owners, m.entryLimit ≤ entryLimitHigh) →
      RockSwapDirRr.loop entryLimitHigh owners dirs = some created →
      ∀ m ∈ created, m.entryLimit ≤ entryLimitHigh := by
  induction dirs with
  | nil =>
    intro owners created ho h
    simp only [RockSwapDirRr.loop, Option.some.injEq] at h
    subst h
    exact ho
  | cons c rest ih =>
    intro owners created ho h
    cases c with
    | none =>
      simp only [RockSwapDirRr.loop] at h
      exact ih owners created ho h
    | some c =>
      simp only [RockSwapDirRr.loop] at h
      cases hl : entryLimitAllowed c.sd c.maximumSize c.maxObjectSize entryLimitHigh with
      | none => simp [hl] at h
      | some limit =>
        simp only [hl] at h
        refine ih (owners ++ [DirMap.Init limit]) created ?_ h
        intro m hm
        rcases List.mem_append.mp hm with hm | hm
        · exact ho m hm
        · simp only [List.mem_singleton] at hm
          subst hm
          exact entryLimitAllowed_le_high _ _ _ _ _ hl

/-- C15: the directory is never shrunk. `RockSwapDirRr::run` is the only place where
maps are created and it creates each with the limit `entryLimitAllowed()`, so the
`entryLimit()` of a map that exists never exceeds `entryLimitHigh()`; and for every
configuration, when the swap directory has such a map (or any map whose
`entryLimit()` is within `entryLimitHigh()`), `entryLimitAllowed()` is not smaller
than that `entryLimit()`. In every case `entryLimitAllowed()` is
`min(max(existing limit or 0, (maximumSize() - HeaderSize) / maxObjectSize()),
entryLimitHigh())`, with the division of C++ (which has no value for a divisor 0),
so it never exceeds `entryLimitHigh()`. -/
theorem entryLimitAllowed_never_shrinks (d : SwapDir)
    (maximumSize maxObjectSize entryLimitHigh : Int) :
    (entryLimitAllowed d maximumSize maxObjectSize entryLimitHigh =
      if maxObjectSize = 0 then none
      else some (min (max (match d.map with
          | some m => m.entryLimit
          | none => 0) (Int.tdiv (maximumSize - HeaderSize) maxObjectSize)) entryLimitHigh)) ∧
    (∀ allowed, entryLimitAllowed d maximumSize maxObjectSize entryLimitHigh = some allowed →
      allowed ≤ entryLimitHigh) ∧
    (∀ (master : Bool) (dirs : List (Option ConfiguredDir)) (created : List DirMap),
      RockSwapDirRr.run master entryLimitHigh [] dirs = some created →
      ∀ m0 ∈ created, m0.entryLimit ≤ entryLimitHigh ∧
        ∀ m, d.map = some m → m.entryLimit = m0.entryLimit →
          ∀ allowed, entryLimitAllowed d maximumSize maxObjectSize entryLimitHigh = some allowed →
            m.entryLimit ≤ allowed) ∧
    (∀ m, d.map = some m → m.entryLimit ≤ entryLimitHigh →
      ∀ allowed, entryLimitAllowed d maximumSize maxObjectSize entryLimitHigh = some allowed →
        m.entryLimit ≤ allowed) := by
  have hkeep : ∀ m, d.map = some m → m.entryLimit ≤ entryLimitHigh →
      ∀ allowed, entryLimitAllowed d maximumSize maxObjectSize entryLimitHigh = some allowed →
        m.entryLimit ≤ allowed := by
    intro m hm hle allowed h
    rw [entryLimitAllowed_eq] at h
    by_cases h0 : maxObjectSize = 0
    · simp [h0] at h
    · simp only [h0, if_false, Option.some.injEq, hm] at h
      rw [← h]
      exact le_min (le_max_left _ _) hle
  refine ⟨entryLimitAllowed_eq _ _ _ _, entryLimitAllowed_le_high _ _ _ _, ?_, hkeep⟩
  intro master dirs created hrun m0 hm0
  have hle : m0.entryLimit ≤ entryLimitHigh := by
    unfold RockSwapDirRr.run at hrun
    cases master with
    | false =>
      simp only [Bool.false_eq_true, if_false, Option.some.injEq] at hrun
      subst hrun
      simp at hm0
    | true =>
      simp only [if_true, List.isEmpty_nil, Bool.not_true, Bool.false_eq_true, if_false] at hrun
      exact RockSwapDirRr.loop_le_high entryLimitHigh dirs [] created (by simp) hrun m0 hm0
  refine ⟨hle, ?_⟩
  intro m hm heq allowed h
  exact hkeep m hm (by rw [heq]; exact hle) allowed h

theorem entryLimitAllowed_never_shrinks_witness :
    RockSwapDirRr.run true 16777215 []
        [some { sd := { exampleDir with map := none }, maximumSize := 32768,
                maxObjectSize := 4096 }] =
      some [DirMap.Init 4] ∧
    exampleDir.map = some exampleMap ∧ exampleMap.entryLimit = (DirMap.Init 4).entryLimit ∧
    entryLimitAllowed exampleDir 20480 4096 16777215 = some 4 ∧
    exampleMap.entryLimit ≤ 4 ∧
    entryLimitAllowed exampleDir 4194304 4096 16777215 = some 1020 ∧
    exampleMap.entryLimit ≤ 1020 := by
  have h := (entryLimitAllowed_never_shrinks exampleDir 20480 4096 16777215).2.2.1 true
    [some { sd := { exampleDir with map := none }, maximumSize := 32768, maxObjectSize := 4096 }]
    [DirMap.Init 4] rfl (DirMap.Init 4) (by simp)
  have h2 := (entryLimitAllowed_never_shrinks exampleDir 4194304 4096 16777215).2.2.2
    exampleMap rfl (by decide) 1020 rfl
  exact ⟨rfl, rfl, rfl, rfl, h.2 exampleMap rfl rfl 4 rfl, rfl, h2⟩

/-- The counters of a slot agree with the locks held on it, and the locks held are
any number of shared ones or a single exclusive one. -/
theorem LockedSlot.call_consistent (l l1 : LockedSlot) (c : LockCall)
    (hr : l.slot.readers = l.sharedHeld) (hw : l.slot.writers = l.exclusiveHeld)
    (hx : l.exclusiveHeld ≤ 1) (hrw : l.sharedHeld = 0 ∨ l.exclusiveHeld = 0)
    (h : l.call c = some l1) :
    l1.slot.readers = l1.sharedHeld ∧ l1.slot.writers = l1.exclusiveHeld ∧
      l1.exclusiveHeld ≤ 1 ∧ (l1.sharedHeld = 0 ∨ l1.exclusiveHeld = 0) := by
  cases c with
  | sharedLock =>
    simp only [LockedSlot.call, Option.some.injEq] at h
    subst h
    by_cases h0 : l.slot.writers = 0
    · have hx0 : l.exclusiveHeld = 0 := by omega
      simp only [Slot.sharedLock, if_pos h0, if_true]
      refine ⟨by push_cast; omega, hw, hx, Or.inr hx0⟩
    · have hs0 : l.sharedHeld = 0 := by omega
      simp only [Slot.sharedLock, if_neg h0]
      exact ⟨hr, hw, hx, Or.inl hs0⟩
  | exclusiveLock =>
    simp only [LockedSlot.call, Option.some.injEq] at h
    subst h
    by_cases h0 : l.slot.writers = 0 ∧ l.slot.readers = 0
    · have hx0 : l.exclusiveHeld = 0 := by omega
      have hs0 : l.sharedHeld = 0 := by omega
      simp only [Slot.exclusiveLock, if_pos h0, if_true]
      refine ⟨hr, by simp [hx0], by omega, Or.inl hs0⟩
    · simp only [Slot.exclusiveLock, if_neg h0]
      exact ⟨hr, hw, hx, hrw⟩
  | releaseSharedLock =>
    by_cases h0 : l.sharedHeld = 0
    · simp [LockedSlot.call, h0] at h
    · simp only [LockedSlot.call, h0, if_false, Option.some.injEq] at h
      subst h
      have hx0 : l.exclusiveHeld = 0 := by omega
      simp only [Slot.releaseSharedLock]
      refine ⟨by omega, hw, hx, Or.inr hx0⟩
  | releaseExclusiveLock =>
    by_cases h0 : l.exclusiveHeld = 0
    · simp [LockedSlot.call, h0] at h
    · simp only [LockedSlot.call, h0, if_false, Option.some.injEq] at h
      subst h
      simp only [Slot.releaseExclusiveLock]
      refine ⟨hr, by omega, by omega, Or.inr (by omega)⟩

theorem LockedSlot.calls_consistent (cs : List LockCall) :
    ∀ (l l1 : LockedSlot), l.slot.readers = l.sharedHeld → l.slot.writers = l.exclusiveHeld →
      l.exclusiveHeld ≤ 1 → (l.sharedHeld = 0 ∨ l.exclusiveHeld = 0) → l.calls cs = some l1 →
      l1.slot.readers = l1.sharedHeld ∧ l1.slot.writers = l1.exclusiveHeld ∧
        l1.exclusiveHeld ≤ 1 ∧ (l1.sharedHeld = 0 ∨ l1.exclusiveHeld = 0) := by
  induction cs with
  | nil =>
    intro l l1 hr hw hx hrw h
    simp only [LockedSlot.calls, Option.some.injEq] at h
    subst h
    exact ⟨hr, hw, hx, hrw⟩
  | cons c cs ih =>
    intro l l1 hr hw hx hrw h
    simp only [LockedSlot.calls] at h
    cases hc : l.call c with
    | none => simp [hc] at h
    | some l2 =>
      simp only [hc] at h
      obtain ⟨h1, h2, h3, h4⟩ := LockedSlot.call_consistent l l2 c hr hw hx hrw hc
      exact ih l2 l1 h1 h2 h3 h4 h

theorem LockedSlot.calls_append (pre post : List LockCall) :
    ∀ l : LockedSlot, l.calls (pre ++ post) =
      match l.calls pre with
      | none => none
      | some l1 => l1.calls post := by
  induction pre with
  | nil => intro l; simp [LockedSlot.calls]
  | cons c cs ih =>
    intro l
    simp only [List.cons_append, LockedSlot.calls]
    cases l.call c with
    | none => rfl
    | some l2 => exact ih l2

/-- C13: on a slot that starts with no lock, after every sequence of `sharedLock`,
`exclusiveLock`, `releaseSharedLock` and `releaseExclusiveLock` calls in which
each release undoes an earlier successful lock, and after every part of such a
sequence, `readers >= 0`, `writers` is 0 or 1, and not both `readers > 0` and
`writers > 0`. On any slot `sharedLock` returns true only if `writers == 0`, and
`exclusiveLock` returns true only if `readers == 0` and `writers == 0`. -/
theorem slot_locks_exclude (pre post : List LockCall) (l : LockedSlot)
    (h : LockedSlot.fresh.calls (pre ++ post) = some l) :
    (∃ l1, LockedSlot.fresh.calls pre = some l1 ∧
      l1.slot.readers ≥ 0 ∧ (l1.slot.writers = 0 ∨ l1.slot.writers = 1) ∧
      ¬ (l1.slot.readers > 0 ∧ l1.slot.writers > 0)) ∧
    (l.slot.readers ≥ 0 ∧ (l.slot.writers = 0 ∨ l.slot.writers = 1) ∧
      ¬ (l.slot.readers > 0 ∧ l.slot.writers > 0)) ∧
    (∀ s : Slot, s.sharedLock.1 = true → s.writers = 0) ∧
    (∀ s : Slot, s.exclusiveLock.1 = true → s.readers = 0 ∧ s.writers = 0) := by
  have key : ∀ (cs : List LockCall) (l1 : LockedSlot), LockedSlot.fresh.calls cs = some l1 →
      l1.slot.readers ≥ 0 ∧ (l1.slot.writers = 0 ∨ l1.slot.writers = 1) ∧
      ¬ (l1.slot.readers > 0 ∧ l1.slot.writers > 0) := by
    intro cs l1 h1
    obtain ⟨hr, hw, hx, hrw⟩ := LockedSlot.calls_consistent cs LockedSlot.fresh l1 rfl rfl
      (by decide) (Or.inl rfl) h1
    refine ⟨by omega, by omega, ?_⟩
    rintro ⟨h2, h3⟩
    omega
  refine ⟨?_, key _ l h, ?_, ?_⟩
  · rw [LockedSlot.calls_append] at h
    cases hp : LockedSlot.fresh.calls pre with
    | none => simp [hp] at h
    | some l1 => exact ⟨l1, rfl, key pre l1 hp⟩
  · intro s hs
    by_contra h0
    simp [Slot.sharedLock, h0] at hs
  · intro s hs
    by_contra h0
    have h1 : ¬ (s.writers = 0 ∧ s.readers = 0) := fun h2 => h0 ⟨h2.2, h2.1⟩
    simp [Slot.exclusiveLock, h1] at hs

theorem slot_locks_exclude_witness :
    LockedSlot.fresh.calls ([.sharedLock, .sharedLock, .exclusiveLock, .releaseSharedLock] ++
        [.releaseSharedLock, .exclusiveLock, .sharedLock]) =
      some { slot := { readers := 0, writers := 1 }, sharedHeld := 0, exclusiveHeld := 1 } ∧
    ∃ l1, LockedSlot.fresh.calls
        [.sharedLock, .sharedLock, .exclusiveLock, .releaseSharedLock] = some l1 ∧
      l1.slot.readers ≥ 0 ∧ (l1.slot.writers = 0 ∨ l1.slot.writers = 1) ∧
      ¬ (l1.slot.readers > 0 ∧ l1.slot.writers > 0) :=
  ⟨by decide, (slot_locks_exclude [.sharedLock, .sharedLock, .exclusiveLock, .releaseSharedLock]
    [.releaseSharedLock, .exclusiveLock, .sharedLock]
    { slot := { readers := 0, writers := 1 }, sharedHeld := 0, exclusiveHeld := 1 }
    (by decide)).1⟩

end Rock

namespace Kid

theorem stop_returns (L : Int) (k : Kid) (exitStatus now : Int) (hrun : k.isRunning = true)
    (hstart : k.startTime ≠ 0) :
    stop L k exitStatus now = .ok
      { k with
        isRunning := false
        badFailures := if now - k.startTime < L then k.badFailures + 1 else 0
        status := exitStatus } := by
  by_cases hfast : now - k.startTime < L <;>
    simp [stop, running, hrun, hstart, hfast]

theorem stop_ok (L : Int) (k k1 : Kid) (exitStatus now : Int)
    (h : stop L k exitStatus now = .ok k1) : k.isRunning = true ∧ k.startTime ≠ 0 := by
  by_cases hrun : k.isRunning = true
  · by_cases hstart : k.startTime = 0
    · simp [stop, running, hrun, hstart] at h
    · exact ⟨hrun, hstart⟩
  · simp [stop, running, hrun] at h

theorem start_ok (k k1 : Kid) (cpid now : Int) (h : start k cpid now = .ok k1) :
    k.isRunning = false ∧ cpid > 0 ∧
      k1 = { k with isRunning := true, pid := cpid, startTime := now } := by
  by_cases h1 : k.isRunning = true
  · simp [start, running, h1] at h
  · by_cases h2 : cpid > 0
    · simp [start, running, h1, h2] at h
      exact ⟨by simpa using h1, h2, h.symm⟩
    · simp [start, running, h1, h2] at h

theorem run_returns (L : Int) (k k1 : Kid) (r : Run) (h : run L k r = .ok k1) :
    k1.isRunning = false ∧
      k1.badFailures = if r.fast L then k.badFailures + 1 else 0 := by
  unfold run at h
  cases hs : start k r.cpid r.startTime with
  | error a => simp [hs] at h
  | ok k2 =>
    simp only [hs] at h
    obtain ⟨hrun, hstart⟩ := stop_ok L k2 k1 r.exitStatus r.stopTime h
    rw [stop_returns L k2 r.exitStatus r.stopTime hrun hstart] at h
    simp only [Except.ok.injEq] at h
    subst h
    obtain ⟨_, _, hk2⟩ := start_ok k k2 r.cpid r.startTime hs
    subst hk2
    simp [Run.fast]

theorem runs_append (L : Int) (rs : List Run) (r : Run) :
    ∀ k : Kid, runs L k (rs ++ [r]) =
      match runs L k rs with
      | .error a => .error a
      | .ok k1 => run L k1 r := by
  induction rs with
  | nil =>
    intro k
    simp only [List.nil_append, runs]
    cases run L k r <;> rfl
  | cons r1 rs ih =>
    intro k
    simp only [List.cons_append, runs]
    cases run L k r1 with
    | error a => rfl
    | ok k1 => exact ih k1

theorem trailingFast_append (L : Int) (rs : List Run) (r : Run) :
    trailingFast L (rs ++ [r]) = if r.fast L then trailingFast L rs + 1 else 0 := by
  unfold trailingFast
  by_cases h : r.fast L = true <;> simp [List.takeWhile, h]

theorem runs_badFailures (L : Int) (k0 : Kid) (h0 : k0.badFailures = 0) (rs : List Run) :
    ∀ k1 : Kid, runs L k0 rs = .ok k1 → k1.badFailures = trailingFast L rs := by
  induction rs using List.reverseRecOn with
  | nil =>
    intro k1 h
    simp only [runs, Except.ok.injEq] at h
    subst h
    simp [trailingFast, h0]
  | append_singleton rs r ih =>
    intro k1 h
    rw [runs_append] at h
    cases hr : runs L k0 rs with
    | error a => simp [hr] at h
    | ok k2 =>
      simp only [hr] at h
      have h2 := ih k2 hr
      obtain ⟨_, h3⟩ := run_returns L k2 k1 r h
      rw [h3, trailingFast_append, h2]
      by_cases hf : r.fast L = true <;> simp [hf]

end Kid

/-- C16: for a running kid (started at a time other than 0), `stop(status)` returns
with `running()` false, the pid and the answer of `getPid()` unchanged, the exit
status recorded, and `badFailures` one more than before when the kid ran for less
than `fastFailureTimeLimit` seconds and 0 otherwise. After `start(cpid)`, `getPid()`
is `cpid` and stays so through `stop`. After any sequence of runs of a new kid,
`badFailures` is the number of fast failures at the end of the sequence, so
`hopeless()` holds only if that number exceeds `badFailureLimit`; and with
`badFailureLimit >= 0`, a run of at least `fastFailureTimeLimit` seconds leaves
`hopeless()` false. -/
theorem kid_failure_tracking (fastFailureTimeLimit badFailureLimit : Int) :
    (∀ (k : Kid) (exitStatus now : Int), k.running = true → k.startTime ≠ 0 →
      ∃ k1, Kid.stop fastFailureTimeLimit k exitStatus now = .ok k1 ∧
        k1.running = false ∧ k1.pid = k.pid ∧ k1.getPid = k.getPid ∧
        k1.status = exitStatus ∧
        (now - k.startTime < fastFailureTimeLimit → k1.badFailures = k.badFailures + 1) ∧
        (¬ now - k.startTime < fastFailureTimeLimit →
          k1.badFailures = 0 ∧ (0 ≤ badFailureLimit → k1.hopeless badFailureLimit = false))) ∧
    (∀ (k k1 : Kid) (cpid now : Int), Kid.start k cpid now = .ok k1 →
      k1.running = true ∧ k1.getPid = .ok cpid ∧
      ∀ (exitStatus later : Int) (k2 : Kid),
        Kid.stop fastFailureTimeLimit k1 exitStatus later = .ok k2 → k2.getPid = .ok cpid) ∧
    (∀ (status : Int) (rs : List Kid.Run) (k1 : Kid),
      Kid.runs fastFailureTimeLimit (Kid.fresh status) rs = .ok k1 →
      k1.badFailures = Kid.trailingFast fastFailureTimeLimit rs ∧
      (k1.hopeless badFailureLimit = true →
        (Kid.trailingFast fastFailureTimeLimit rs : Int) > badFailureLimit)) := by
  refine ⟨?_, ?_, ?_⟩
  · intro k exitStatus now hrun hstart
    refine ⟨_, Kid.stop_returns fastFailureTimeLimit k exitStatus now hrun hstart, rfl, rfl, rfl,
      rfl, ?_, ?_⟩
    · intro h
      simp [h]
    · intro h
      refine ⟨by simp [h], ?_⟩
      intro hB
      simp [Kid.hopeless, h, hB]
  · intro k k1 cpid now h
    obtain ⟨_, h2, hk1⟩ := Kid.start_ok k k1 cpid now h
    subst hk1
    refine ⟨rfl, by simp [Kid.getPid, h2], ?_⟩
    intro exitStatus later k2 hs
    obtain ⟨hrun, hstart⟩ := Kid.stop_ok _ _ _ _ _ hs
    rw [Kid.stop_returns _ _ _ _ hrun hstart] at hs
    simp only [Except.ok.injEq] at hs
    subst hs
    simp [Kid.getPid, h2]
  · intro status rs k1 h
    have hb := Kid.runs_badFailures fastFailureTimeLimit (Kid.fresh status) rfl rs k1 h
    refine ⟨hb, ?_⟩
    intro hh
    simpa [Kid.hopeless, hb] using hh

theorem kid_failure_tracking_witness :
    (∃ k1, Kid.runs 10 (Kid.fresh 0) Kid.exampleFailures = .ok k1 ∧
      k1.badFailures = Kid.trailingFast 10 Kid.exampleFailures ∧
      (k1.hopeless 4 = true → (Kid.trailingFast 10 Kid.exampleFailures : Int) > 4) ∧
      k1.hopeless 4 = true ∧ k1.badFailures = 5 ∧ k1.getPid = .ok 11) ∧
    (∃ k1, Kid.runs 10 (Kid.fresh 0) (Kid.exampleFailures ++ [⟨12, 110, 0, 120⟩]) = .ok k1 ∧
      k1.hopeless 4 = false) := by
  refine ⟨⟨_, rfl, ?_, ?_, rfl, rfl, rfl⟩, ⟨_, rfl, rfl⟩⟩
  · exact ((kid_failure_tracking 10 4).2.2 0 Kid.exampleFailures _ rfl).1
  · exact ((kid_failure_tracking 10 4).2.2 0 Kid.exampleFailures _ rfl).2
